import Mathlib

/-!
Verification development for PyCaptionCompiler (`pycaptioncompiler/compiler.py`).

The compiler reads a captions keyvalues file into a name → text mapping
(`Subtitles.lines`), hashes each lowercased name with CRC-32, encodes each text
as UTF-16LE plus a 16-bit zero terminator, packs the encoded payloads into
8192-byte blocks, and serializes a `.dat` file consisting of a 24-byte header,
a directory of 12-byte records, zero padding up to a 512-aligned first-block
offset, and the block buffers.

We shallowly embed the module: Python `bytes` values become `List Nat`
(each element a byte value), Python dicts become insertion-ordered association
lists with unique keys, and the two `while` loops of `_createblocks` become
fuelled recursions whose fuel exhaustion is reported as a distinct `diverge`
outcome (the outer loop really can fail to terminate).  Failure modes of the
Python code are reported explicitly: `bytes(n)` with negative `n` raises
`ValueError`, a missing dict key raises `KeyError`, and `struct.pack` with an
out-of-range value raises `struct.error`.
-/

set_option autoImplicit false

/-- `MAGIC_KEYWORD = b"VCCD"` from the source, as byte values. -/
def MAGIC_KEYWORD : List Nat := [86, 67, 67, 68]

/-- `VERSION = 1` from the source. -/
def VERSION : Nat := 1

/-- `BLOCK_SIZE = 8192` from the source. -/
def BLOCK_SIZE : Nat := 8192

/-- One bit-step of the reflected CRC-32 (polynomial `0xEDB88320`). -/
def crc32Step (c : Nat) : Nat :=
  if c % 2 = 1 then (c / 2) ^^^ 0xEDB88320 else c / 2

/-- Fold one input byte into a CRC-32 accumulator (eight bit-steps). -/
def crc32Update (crc b : Nat) : Nat :=
  (List.range 8).foldl (fun c _ => crc32Step c) (crc ^^^ (b % 256))

/-- `binascii.crc32` on a byte string: standard CRC-32 with initial value and
final xor `0xFFFFFFFF`; in Python 3 the result is the full unsigned 32-bit
value, no masking applied. -/
def crc32 (data : List Nat) : Nat :=
  (data.foldl crc32Update 0xFFFFFFFF) ^^^ 0xFFFFFFFF

/-- `str.lower()`, modelled character-wise (the ASCII range, which is what
caption token names use; `Char.toLower` lowers exactly `A`–`Z`). -/
def pyLower (s : String) : String :=
  String.mk (s.data.map Char.toLower)

/-- UTF-8 encoding of one code point, as byte values (`str.encode()`). -/
def utf8EncodeCharNat (c : Nat) : List Nat :=
  if c < 128 then [c]
  else if c < 2048 then [192 + c / 64, 128 + c % 64]
  else if c < 65536 then [224 + c / 4096, 128 + c / 64 % 64, 128 + c % 64]
  else [240 + c / 262144, 128 + c / 4096 % 64, 128 + c / 64 % 64, 128 + c % 64]

/-- `str.encode()` (UTF-8) as a list of byte values. -/
def utf8Bytes (s : String) : List Nat :=
  (s.data.map (fun c => utf8EncodeCharNat c.toNat)).flatten

/-- UTF-16 code units of one code point (a surrogate pair above the BMP). -/
def utf16Units (c : Nat) : List Nat :=
  if c < 65536 then [c]
  else [55296 + (c - 65536) / 1024, 56320 + (c - 65536) % 1024]

/-- The UTF-16 code-unit sequence of a string. -/
def utf16CodeUnits (s : String) : List Nat :=
  (s.data.map (fun c => utf16Units c.toNat)).flatten

/-- `str.encode("utf-16le")`: each UTF-16 code unit as two little-endian bytes. -/
def utf16leBytes (s : String) : List Nat :=
  (utf16CodeUnits s).map (fun u => [u % 256, u / 256]) |>.flatten

/-- The hash key the encoder builds for a caption name:
`crc32(name.lower().encode())` (compiler.py line 72). -/
def encodeName (name : String) : Nat :=
  crc32 (utf8Bytes (pyLower name))

/-- The payload the encoder builds for a caption text:
`line.encode("utf-16le") + pack('h', 0)` (compiler.py line 73);
`pack('h', 0)` is the two zero bytes of a 16-bit zero terminator. -/
def encodePayload (text : String) : List Nat :=
  utf16leBytes text ++ [0, 0]

/-- Python `d[k] = v` on an insertion-ordered dict modelled as an association
list: an existing key keeps its position and gets the new value, a new key is
appended at the end. -/
def dictSet {α : Type} (d : List (Nat × α)) (k : Nat) (v : α) : List (Nat × α) :=
  if (d.lookup k).isSome then d.map (fun kv => if kv.1 = k then (k, v) else kv)
  else d ++ [(k, v)]

/-- The first loop of `Subtitles._createblocks` (lines 71–76): build
`crc_line : dict[int, bytes]` and `crc_strlen : dict[int, int]` from the
name → text mapping. -/
def buildDicts (lines : List (String × String)) :
    List (Nat × List Nat) × List (Nat × Nat) :=
  lines.foldl
    (fun acc nl =>
      let h := encodeName nl.1
      let p := encodePayload nl.2
      (dictSet acc.1 h p, dictSet acc.2 h p.length))
    ([], [])

/-- The scan inside `GetLineSized` (lines 21–26): iterate the dict in order,
tracking the key of the strictly largest value seen (`None` if no value
exceeded the initial `max_size = 0`). -/
def scanLargest (crc_len : List (Nat × Nat)) : Option Nat × Nat :=
  crc_len.foldl (fun acc kv => if kv.2 > acc.2 then (some kv.1, kv.2) else acc)
    ((none : Option Nat), 0)

/-- Python truthiness of `chash : int | None`: `None` and `0` are falsy. -/
def pyTruthy : Option Nat → Bool
  | none => false
  | some h => h ≠ 0

/-- `GetLineSized(crc_len, size)` (lines 19–31).  Note that, exactly as in the
source, the `size` parameter is never consulted: the scan picks the largest
value outright.  The chosen key is deleted from the dict only when it is
truthy (`if chash:`), so the hash `0` is never deleted.  Returns the pair
`(chash, max_size)` together with the resulting dict. -/
def GetLineSized (crc_len : List (Nat × Nat)) (size : Int) :
    (Option Nat × Nat) × List (Nat × Nat) :=
  let r := scanLargest crc_len
  if pyTruthy r.1 then (r, crc_len.filter (fun kv => some kv.1 ≠ r.1))
  else (r, crc_len)

/-- `LineData` (lines 34–38). -/
structure LineData where
  hash : Nat
  offset : Nat
  len : Nat
deriving DecidableEq

/-- `BlockData` (lines 40–51): the placement records and the byte buffer. -/
structure BlockData where
  line_data : List LineData
  block : List Nat
deriving DecidableEq

/-- `BlockData.__init__`: empty records, empty buffer. -/
def BlockData.emptyBlock : BlockData := ⟨[], []⟩

/-- `BlockData.AddLine` (lines 45–48): record the line at the current end of
the buffer and append its bytes. -/
def BlockData.AddLine (b : BlockData) (linehash : Nat) (bytedata : List Nat) :
    BlockData :=
  { line_data := b.line_data ++ [⟨linehash, b.block.length, bytedata.length⟩],
    block := b.block ++ bytedata }

/-- Python `bytes(n)`: `n` zero bytes for `n ≥ 0`, `ValueError` (here `none`)
for negative `n`. -/
def pyBytes (n : Int) : Option (List Nat) :=
  if 0 ≤ n then some (List.replicate n.toNat 0) else none

/-- `BlockData.Fill` (lines 50–51): `self.block += bytes(BLOCK_SIZE - len(self.block))`;
fails with `ValueError` when the buffer already exceeds `BLOCK_SIZE`. -/
def BlockData.Fill (b : BlockData) : Option BlockData :=
  (pyBytes ((BLOCK_SIZE : Int) - (b.block.length : Int))).map
    (fun z => { b with block := b.block ++ z })

/-- Python-level errors the embedded code can raise. -/
inductive PErr where
  | valueError : PErr
  | keyError : PErr
  | structError : PErr
deriving DecidableEq

/-- Outcome of running embedded Python code: a value, a raised error, or
non-termination (fuel exhaustion of a loop that really loops forever). -/
inductive PResult (α : Type) where
  | ok : α → PResult α
  | err : PErr → PResult α
  | diverge : PResult α
deriving DecidableEq

/-- Sequencing of embedded computations: errors and divergence propagate. -/
def PResult.bind {α β : Type} : PResult α → (α → PResult β) → PResult β
  | .ok a, f => f a
  | .err e, _ => .err e
  | .diverge, _ => .diverge

/-- Project the `ok` value, if any. -/
def PResult.getOk {α : Type} : PResult α → Option α
  | .ok a => some a
  | _ => none

/-- Lift an `Option` (Python code that can raise `e`) into `PResult`. -/
def ofOption {α : Type} (e : PErr) : Option α → PResult α
  | some a => .ok a
  | none => .err e

/-- The `break` path of the inner packing loop (lines 89–91):
`block.Fill()` then leave the loop, with the dict as `GetLineSized` left it. -/
def fillBreak (block : BlockData) (strlen' : List (Nat × Nat)) :
    PResult (BlockData × List (Nat × Nat)) :=
  match block.Fill with
  | some b => .ok (b, strlen')
  | none => .err .valueError

/-- The inner `while remaining_size:` loop of `_createblocks` (lines 87–95),
fuelled.  Each iteration asks `GetLineSized` for a line; a falsy hash
(`None`, or the CRC value `0`) fills the block and breaks; otherwise the
line's bytes are looked up in `crc_line`, appended with `AddLine`, and
`remaining_size -= size` (which may go negative: `remaining_size` is an
`Int` and the loop guard is `≠ 0`, exactly like Python truthiness). -/
def packLoop (crc_line : List (Nat × List Nat)) :
    Nat → Int → List (Nat × Nat) → BlockData →
    PResult (BlockData × List (Nat × Nat))
  | 0, _, _, _ => .diverge
  | fuel + 1, remaining, crc_strlen, block =>
    if remaining = 0 then .ok (block, crc_strlen)
    else
      match GetLineSized crc_strlen remaining with
      | ((none, _), strlen') => fillBreak block strlen'
      | ((some h, size), strlen') =>
        if h = 0 then fillBreak block strlen'
        else
          match crc_line.lookup h with
          | some line =>
            packLoop crc_line fuel (remaining - (size : Int)) strlen'
              (block.AddLine h line)
          | none => .err .keyError

/-- The outer `while len(crc_strlen):` loop of `_createblocks` (lines 82–97),
fuelled: while entries remain, pack one block (inner fuel
`crc_strlen.length + 1` always suffices for the inner loop, which deletes a
key at every continuing step) and append it. -/
def blocksLoop (crc_line : List (Nat × List Nat)) :
    Nat → List (Nat × Nat) → List BlockData → PResult (List BlockData)
  | 0, _, _ => .diverge
  | fuel + 1, crc_strlen, blocks =>
    if crc_strlen.isEmpty then .ok blocks
    else
      (packLoop crc_line (crc_strlen.length + 1) 8192 crc_strlen
          BlockData.emptyBlock).bind
        (fun r => blocksLoop crc_line fuel r.2 (blocks ++ [r.1]))

/-- `Subtitles._createblocks` (lines 66–99): build the hash dicts, then pack
blocks until no entry remains. -/
def createblocks (fuel : Nat) (lines : List (String × String)) :
    PResult (List BlockData) :=
  let d := buildDicts lines
  blocksLoop d.1 fuel d.2 []

/-- Two little-endian bytes of a value below `2^16`. -/
def le2 (n : Nat) : List Nat := [n % 256, n / 256 % 256]

/-- Four little-endian bytes of a value below `2^32`. -/
def le4 (n : Nat) : List Nat :=
  [n % 256, n / 256 % 256, n / 65536 % 256, n / 16777216 % 256]

/-- `struct.pack("i", n)` for a non-negative value: four little-endian bytes,
`struct.error` (none) when the value does not fit a signed 32-bit int. -/
def pack_i (n : Nat) : Option (List Nat) :=
  if n < 2147483648 then some (le4 n) else none

/-- `struct.pack("I", n)`: four little-endian bytes of an unsigned 32-bit int. -/
def pack_I (n : Nat) : Option (List Nat) :=
  if n < 4294967296 then some (le4 n) else none

/-- `struct.pack("H", n)`: two little-endian bytes of an unsigned 16-bit int. -/
def pack_H (n : Nat) : Option (List Nat) :=
  if n < 65536 then some (le2 n) else none

/-- One 12-byte directory record (lines 122–125): hash, owning block index,
offset within the block, payload length, all little-endian. -/
def dirRecord (blockIndex : Nat) (ld : LineData) : Option (List Nat) :=
  (pack_I ld.hash).bind fun a =>
  (pack_I blockIndex).bind fun b =>
  (pack_H ld.offset).bind fun c =>
  (pack_H ld.len).bind fun d =>
  some (a ++ b ++ c ++ d)

/-- The inner loop of `_createdirectory`: records of one block, in placement
order. -/
def blockDirectory (blockIndex : Nat) (b : BlockData) : Option (List Nat) :=
  b.line_data.foldl
    (fun acc ld => acc.bind fun dir => (dirRecord blockIndex ld).map fun r => dir ++ r)
    (some [])

/-- `Subtitles._createdirectory` (lines 102–127): for each block index in
order, emit the records of that block. -/
def createdirectory (blocks : List BlockData) : Option (List Nat) :=
  blocks.enum.foldl
    (fun acc ib => acc.bind fun dir => (blockDirectory ib.1 ib.2).map fun r => dir ++ r)
    (some [])

/-- `Subtitles.serialize` (lines 130–173): header (magic, version, block
count, block size, directory entry count = `len(self.lines.keys())`), the
first-block offset `(cur_len // 512 + 1) * 512` where
`cur_len = 20 + len(directory) + 4`, the directory, zero padding up to the
offset, then every block buffer in order. -/
def serialize (fuel : Nat) (lines : List (String × String)) :
    PResult (List Nat) :=
  (createblocks fuel lines).bind fun blocks =>
  (ofOption .structError (createdirectory blocks)).bind fun directory =>
  (ofOption .structError (pack_i VERSION)).bind fun verB =>
  (ofOption .structError (pack_i blocks.length)).bind fun nbB =>
  (ofOption .structError (pack_i BLOCK_SIZE)).bind fun bsB =>
  (ofOption .structError (pack_i lines.length)).bind fun dcB =>
  let file20 := MAGIC_KEYWORD ++ verB ++ nbB ++ bsB ++ dcB
  let cur_len := file20.length + directory.length + 4
  let offset := (cur_len / 512 + 1) * 512
  (ofOption .structError (pack_i offset)).bind fun offB =>
  (ofOption .valueError (pyBytes ((offset : Int) - (cur_len : Int)))).bind fun padding =>
  .ok (file20 ++ offB ++ directory ++ padding ++ (blocks.map BlockData.block).flatten)

/-- The keys of a dict, in order. -/
def keysOf {α : Type} (d : List (Nat × α)) : List Nat := d.map Prod.fst

/-- The number of payload bytes recorded as placed in a block (the sum of the
`len` fields of its `line_data`). -/
def BlockData.payloadLen (b : BlockData) : Nat := (b.line_data.map LineData.len).sum

/-- The hashes placed in a block, in placement order. -/
def BlockData.hashes (b : BlockData) : List Nat := b.line_data.map LineData.hash

/-- All hashes placed across a block sequence, in block order then placement
order. -/
def placedHashes (bs : List BlockData) : List Nat := (bs.map BlockData.hashes).flatten

/-- The total number of placement records across a block sequence (the number
of directory records `_createdirectory` emits). -/
def totalRecords (bs : List BlockData) : Nat :=
  (bs.map (fun b => b.line_data.length)).sum

/-- The 12-byte directory record layout stated by the spec: uint32 hash,
uint32 owning block index, uint16 offset within the block, uint16 payload
length, all little-endian. -/
def dirRecordSpec (blockIndex : Nat) (ld : LineData) : List Nat :=
  le4 ld.hash ++ le4 blockIndex ++ le2 ld.offset ++ le2 ld.len

/-- A placement record is coherent with the hash → payload dict and a block
buffer: it names a payload of the dict, records its exact length, and the
buffer holds that whole payload contiguously at the recorded offset. -/
def PlacedOK (cl : List (Nat × List Nat)) (buf : List Nat) (ld : LineData) : Prop :=
  ∃ p, cl.lookup ld.hash = some p ∧ ld.len = p.length ∧
    ld.offset + ld.len ≤ buf.length ∧ (buf.drop ld.offset).take ld.len = p

/-- Every placement record of the block is coherent with its buffer. -/
def BlockWF (cl : List (Nat × List Nat)) (b : BlockData) : Prop :=
  ∀ ld ∈ b.line_data, PlacedOK cl b.block ld

/-- Invariant of a block while it is being built (before filling): the buffer
is exactly the concatenation of the placed payloads. -/
def Building (cl : List (Nat × List Nat)) (b : BlockData) : Prop :=
  BlockWF cl b ∧ b.block.length = b.payloadLen

/-- Invariant tying `crc_strlen` to `crc_line`: keys are unique and every
entry records the length of the corresponding payload in `crc_line`. -/
def StrlenWF (cl : List (Nat × List Nat)) (strlen : List (Nat × Nat)) : Prop :=
  (keysOf strlen).Nodup ∧
  ∀ kv ∈ strlen, ∃ p, cl.lookup kv.1 = some p ∧ kv.2 = p.length

/-- Deleting a key from a dict (`del crc_len[chash]`). -/
def eraseKey {α : Type} (h : Nat) (d : List (Nat × α)) : List (Nat × α) :=
  d.filter (fun kv => decide (kv.1 ≠ h))

/-- What holds of every block the packer returns: coherent placements, a
buffer of exactly `BLOCK_SIZE` bytes, at most `BLOCK_SIZE` payload bytes, and
zero bytes in the unused trailing space. -/
def GoodBlock (cl : List (Nat × List Nat)) (b : BlockData) : Prop :=
  BlockWF cl b ∧ b.block.length = BLOCK_SIZE ∧ b.payloadLen ≤ BLOCK_SIZE ∧
  b.block.drop b.payloadLen = List.replicate (BLOCK_SIZE - b.payloadLen) 0

/-- Invariant tying the two dicts built by `_createblocks`: same keys, and
`crc_strlen` is length-coherent with `crc_line`. -/
def DictsWF (cl : List (Nat × List Nat)) (cs : List (Nat × Nat)) : Prop :=
  keysOf cs = keysOf cl ∧ StrlenWF cl cs

/-! ### Basic facts about the byte-level helpers -/

theorem packLoop_succ (cl : List (Nat × List Nat)) (fuel : Nat) (remaining : Int)
    (strlen : List (Nat × Nat)) (block : BlockData) :
    packLoop cl (fuel + 1) remaining strlen block =
      (if remaining = 0 then .ok (block, strlen)
      else
        match GetLineSized strlen remaining with
        | ((none, _), strlen') => fillBreak block strlen'
        | ((some h, size), strlen') =>
          if h = 0 then fillBreak block strlen'
          else
            match cl.lookup h with
            | some line =>
              packLoop cl fuel (remaining - (size : Int)) strlen' (block.AddLine h line)
            | none => .err .keyError) := rfl

theorem blocksLoop_succ (cl : List (Nat × List Nat)) (fuel : Nat)
    (strlen : List (Nat × Nat)) (blocks : List BlockData) :
    blocksLoop cl (fuel + 1) strlen blocks =
      (if strlen.isEmpty then .ok blocks
      else
        (packLoop cl (strlen.length + 1) 8192 strlen BlockData.emptyBlock).bind
          (fun r => blocksLoop cl fuel r.2 (blocks ++ [r.1]))) := rfl

@[simp]
theorem le4_length (n : Nat) : (le4 n).length = 4 := rfl

@[simp]
theorem le2_length (n : Nat) : (le2 n).length = 2 := rfl

theorem crc32Step_lt {c : Nat} (h : c < 4294967296) : crc32Step c < 4294967296 := by
  have h2 : c / 2 < 4294967296 := Nat.lt_of_le_of_lt (Nat.div_le_self c 2) h
  unfold crc32Step
  split
  · have : (4294967296 : Nat) = 2 ^ 32 := by norm_num
    rw [this] at h2 ⊢
    exact Nat.xor_lt_two_pow h2 (by norm_num)
  · exact h2

theorem crc32Update_lt {c : Nat} (b : Nat) (h : c < 4294967296) :
    crc32Update c b < 4294967296 := by
  unfold crc32Update
  have hx : c ^^^ b % 256 < 4294967296 := by
    have : (4294967296 : Nat) = 2 ^ 32 := by norm_num
    rw [this] at h ⊢
    exact Nat.xor_lt_two_pow h (lt_of_lt_of_le (Nat.mod_lt b (by norm_num)) (by norm_num))
  generalize c ^^^ b % 256 = d at hx
  have : ∀ (l : List Nat) (d : Nat), d < 4294967296 →
      l.foldl (fun c _ => crc32Step c) d < 4294967296 := by
    intro l
    induction l with
    | nil => intro d hd; exact hd
    | cons x xs ih => intro d hd; exact ih _ (crc32Step_lt hd)
  exact this _ _ hx

/-- `binascii.crc32` always returns a value below `2^32`: the full unsigned
32-bit checksum needs no masking. -/
theorem crc32_lt (data : List Nat) : crc32 data < 4294967296 := by
  unfold crc32
  have h : data.foldl crc32Update 0xFFFFFFFF < 4294967296 := by
    have : ∀ (l : List Nat) (c : Nat), c < 4294967296 →
        l.foldl crc32Update c < 4294967296 := by
      intro l
      induction l with
      | nil => intro c hc; exact hc
      | cons x xs ih => intro c hc; exact ih _ (crc32Update_lt x hc)
    exact this data _ (by norm_num)
  have : (4294967296 : Nat) = 2 ^ 32 := by norm_num
  rw [this] at h ⊢
  exact Nat.xor_lt_two_pow h (by norm_num)

theorem pairBytes_length (l : List Nat) :
    ((l.map (fun u => [u % 256, u / 256])).flatten).length = 2 * l.length := by
  induction l with
  | nil => simp
  | cons x xs ih => simp [ih]; ring

theorem utf16leBytes_length (s : String) :
    (utf16leBytes s).length = 2 * (utf16CodeUnits s).length := by
  unfold utf16leBytes
  exact pairBytes_length _

theorem encodePayload_length (t : String) :
    (encodePayload t).length = 2 * (utf16CodeUnits t).length + 2 := by
  simp [encodePayload, utf16leBytes_length]

theorem encodePayload_pos (t : String) : 0 < (encodePayload t).length := by
  rw [encodePayload_length]; omega

theorem utf16CodeUnits_bmp_length (l : List Char) (h : ∀ c ∈ l, c.toNat < 65536) :
    (utf16CodeUnits (String.mk l)).length = l.length := by
  induction l with
  | nil => rfl
  | cons c cs ih =>
    have hc : c.toNat < 65536 := h c (by simp)
    have hcs := ih (fun d hd => h d (by simp [hd]))
    simp only [utf16CodeUnits, List.map_cons, List.flatten_cons, List.length_append] at *
    rw [hcs, utf16Units, if_pos hc]
    simp only [List.length_cons, List.length_nil]
    omega

theorem encodePayload_replicate_length (n : Nat) (c : Char) (h : c.toNat < 65536) :
    (encodePayload (String.mk (List.replicate n c))).length = 2 * n + 2 := by
  rw [encodePayload_length, utf16CodeUnits_bmp_length]
  · simp
  · intro d hd
    rw [List.eq_of_mem_replicate hd]
    exact h

/-! ### C9: what the encoder produces for each (name, text) pair -/

/-- C9: for every (name, text) pair the encoder adds to its dicts an entry
whose key is the full 32-bit CRC-32 of the lowercased name (a value below
`2^32`, no masking applied) and whose payload is the UTF-16LE encoding of the
text followed by exactly one 16-bit zero terminator, so that the recorded
payload length is `2 * (number of UTF-16 code units) + 2` bytes. -/
theorem C9_encoder_entry (name text : String) (lines : List (String × String)) :
    buildDicts (lines ++ [(name, text)]) =
      (dictSet (buildDicts lines).1 (crc32 (utf8Bytes (pyLower name)))
         (utf16leBytes text ++ [0, 0]),
       dictSet (buildDicts lines).2 (crc32 (utf8Bytes (pyLower name)))
         (2 * (utf16CodeUnits text).length + 2)) ∧
    crc32 (utf8Bytes (pyLower name)) < 4294967296 ∧
    (utf16leBytes text ++ [0, 0]).length = 2 * (utf16CodeUnits text).length + 2 := by
  refine ⟨?_, crc32_lt _, ?_⟩
  · unfold buildDicts
    rw [List.foldl_append]
    have : (encodePayload text).length = 2 * (utf16CodeUnits text).length + 2 :=
      encodePayload_length text
    simp only [List.foldl_cons, List.foldl_nil, encodeName, encodePayload] at *
    rw [this]
  · have := encodePayload_length text
    simpa [encodePayload] using this

/-! ### C10: serialization of the empty input -/

set_option maxRecDepth 4000 in
/-- C10: on the empty mapping, serialization succeeds and returns exactly
512 bytes: magic `VCCD`, version 1, block count 0, block size 8192,
directory entry count 0, first-block offset 512, then 488 zero bytes and no
block payloads. -/
theorem C10_empty_serialize (fuel : Nat) :
    serialize (fuel + 1) [] =
      .ok ([86, 67, 67, 68, 1, 0, 0, 0, 0, 0, 0, 0, 0, 32, 0, 0,
            0, 0, 0, 0, 0, 2, 0, 0] ++ List.replicate 488 0) ∧
    ([86, 67, 67, 68, 1, 0, 0, 0, 0, 0, 0, 0, 0, 32, 0, 0,
      0, 0, 0, 0, 0, 2, 0, 0] ++ List.replicate 488 (0 : Nat)).length = 512 := by
  constructor
  · rfl
  · simp

/-! ### C4: a caption name hashing to 0 makes the packer loop forever -/

theorem blocksLoop_zero_hash_diverge (cl : List (Nat × List Nat)) (L : Nat)
    (hL : 0 < L) :
    ∀ (fuel : Nat) (acc : List BlockData),
      blocksLoop cl fuel [(0, L)] acc = .diverge := by
  intro fuel
  induction fuel with
  | zero => intro acc; rfl
  | succ n ih =>
    intro acc
    have hscan : scanLargest [(0, L)] = (some 0, L) := by
      simp [scanLargest, hL]
    have hget : GetLineSized [(0, L)] 8192 = ((some 0, L), [(0, L)]) := by
      simp [GetLineSized, hscan, pyTruthy]
    have hp : packLoop cl 2 8192 [(0, L)] BlockData.emptyBlock =
        .ok (⟨[], List.replicate 8192 0⟩, [(0, L)]) := by
      rw [show (2 : Nat) = 1 + 1 from rfl, packLoop_succ,
        if_neg (by norm_num : ¬(8192 : Int) = 0), hget]
      exact rfl
    rw [blocksLoop_succ,
      if_neg (by simp : ¬([(0, L)] : List (Nat × Nat)).isEmpty = true)]
    simp only [List.length_cons, List.length_nil]
    rw [hp]
    exact ih _

/-- C4 (refuted): the input with the single caption name `""` (whose CRC-32 is
0) makes `_createblocks` loop forever: `GetLineSized` reports the hash-0 entry
as its candidate but — because `if chash:` treats the hash value 0 as falsy —
never deletes it from the dict, so the outer loop never makes progress, at
every fuel. -/
theorem C4_zero_hash_divergence :
    (∀ fuel : Nat, createblocks fuel [("", "a")] = .diverge) ∧
    GetLineSized [(0, 4)] 8192 = ((some 0, 4), [(0, 4)]) ∧
    encodeName "" = 0 := by
  refine ⟨?_, by decide, by decide⟩
  intro fuel
  have h : buildDicts [("", "a")] = ([(0, encodePayload "a")], [(0, 4)]) := by decide
  unfold createblocks
  rw [h]
  exact blocksLoop_zero_hash_diverge _ 4 (by decide) fuel []

/-! ### Small evaluation lemmas for `GetLineSized` -/

theorem GetLineSized_nil (s : Int) : GetLineSized [] s = ((none, 0), []) := rfl

theorem scanLargest_single (h L : Nat) (hL : 0 < L) :
    scanLargest [(h, L)] = (some h, L) := by
  simp [scanLargest, hL]

theorem scanLargest_two (h1 h2 L1 L2 : Nat) (h1p : 0 < L1) (hle : L2 ≤ L1) :
    scanLargest [(h1, L1), (h2, L2)] = (some h1, L1) := by
  simp [scanLargest, h1p, Nat.not_lt.mpr hle]

theorem GetLineSized_single (h L : Nat) (s : Int) (h0 : h ≠ 0) (hL : 0 < L) :
    GetLineSized [(h, L)] s = ((some h, L), []) := by
  simp [GetLineSized, scanLargest_single h L hL, pyTruthy, h0]

theorem GetLineSized_two (h1 h2 L1 L2 : Nat) (s : Int) (h10 : h1 ≠ 0)
    (hne : h2 ≠ h1) (h1p : 0 < L1) (hle : L2 ≤ L1) :
    GetLineSized [(h1, L1), (h2, L2)] s = ((some h1, L1), [(h2, L2)]) := by
  simp [GetLineSized, scanLargest_two h1 h2 L1 L2 h1p hle, pyTruthy, h10, hne]

/-! ### Evaluation of the packer on one and two entries -/

theorem packSingle_oversized (cl : List (Nat × List Nat)) (h : Nat) (p : List Nat)
    (h0 : h ≠ 0) (hlook : cl.lookup h = some p) (hbig : 8192 < p.length) :
    blocksLoop cl 1 [(h, p.length)] [] = .err .valueError := by
  have hpack : packLoop cl 2 8192 [(h, p.length)] BlockData.emptyBlock =
      .err .valueError := by
    rw [show (2 : Nat) = 1 + 1 from rfl, packLoop_succ,
      if_neg (by norm_num : ¬(8192 : Int) = 0),
      GetLineSized_single h p.length 8192 h0 (by omega)]
    dsimp only
    rw [if_neg h0, hlook]
    dsimp only
    rw [show (1 : Nat) = 0 + 1 from rfl, packLoop_succ,
      if_neg (by push_cast; omega : ¬(8192 : Int) - (p.length : Nat) = 0),
      GetLineSized_nil]
    dsimp only
    simp only [fillBreak, BlockData.Fill, pyBytes, BlockData.AddLine,
      BlockData.emptyBlock, List.nil_append, List.length_nil]
    rw [if_neg (by simp only [BLOCK_SIZE]; push_cast; omega :
      ¬(0 : Int) ≤ (BLOCK_SIZE : Int) - (p.length : Nat))]
    rfl
  rw [blocksLoop_succ,
    if_neg (by simp : ¬([(h, p.length)] : List (Nat × Nat)).isEmpty = true)]
  simp only [List.length_cons, List.length_nil]
  rw [hpack]
  rfl

theorem packTwo_overflow (cl : List (Nat × List Nat)) (h1 h2 : Nat) (p1 p2 : List Nat)
    (h10 : h1 ≠ 0) (h20 : h2 ≠ 0) (hne : h2 ≠ h1)
    (hl1 : cl.lookup h1 = some p1) (hl2 : cl.lookup h2 = some p2)
    (hp2 : 0 < p2.length) (hle : p2.length ≤ p1.length) (hlt : p1.length < 8192)
    (hsum : 8192 < p1.length + p2.length) :
    blocksLoop cl 1 [(h1, p1.length), (h2, p2.length)] [] = .err .valueError := by
  have hp1 : 0 < p1.length := lt_of_lt_of_le hp2 hle
  have hpack : packLoop cl 3 8192 [(h1, p1.length), (h2, p2.length)]
      BlockData.emptyBlock = .err .valueError := by
    rw [show (3 : Nat) = 2 + 1 from rfl, packLoop_succ,
      if_neg (by norm_num : ¬(8192 : Int) = 0),
      GetLineSized_two h1 h2 p1.length p2.length 8192 h10 hne hp1 hle]
    dsimp only
    rw [if_neg h10, hl1]
    dsimp only
    rw [show (2 : Nat) = 1 + 1 from rfl, packLoop_succ,
      if_neg (by push_cast; omega : ¬(8192 : Int) - (p1.length : Nat) = 0),
      GetLineSized_single h2 p2.length _ h20 hp2]
    dsimp only
    rw [if_neg h20, hl2]
    dsimp only
    rw [show (1 : Nat) = 0 + 1 from rfl, packLoop_succ,
      if_neg (by push_cast; omega :
        ¬(8192 : Int) - (p1.length : Nat) - (p2.length : Nat) = 0),
      GetLineSized_nil]
    dsimp only
    simp only [fillBreak, BlockData.Fill, pyBytes, BlockData.AddLine,
      BlockData.emptyBlock, List.nil_append, List.length_nil, List.length_append]
    rw [if_neg (by simp only [BLOCK_SIZE]; push_cast; omega :
      ¬(0 : Int) ≤ (BLOCK_SIZE : Int) - ((p1.length + p2.length : Nat) : Int))]
    rfl
  rw [blocksLoop_succ,
    if_neg (by simp :
      ¬([(h1, p1.length), (h2, p2.length)] : List (Nat × Nat)).isEmpty = true)]
  simp only [List.length_cons, List.length_nil]
  rw [hpack]
  rfl

theorem packSingle_ok (cl : List (Nat × List Nat)) (h : Nat) (p : List Nat)
    (h0 : h ≠ 0) (hlook : cl.lookup h = some p)
    (hp : 0 < p.length) (hlt : p.length < 8192) :
    blocksLoop cl 2 [(h, p.length)] [] =
      .ok [⟨[⟨h, 0, p.length⟩], p ++ List.replicate (8192 - p.length) 0⟩] := by
  have hpack : packLoop cl 2 8192 [(h, p.length)] BlockData.emptyBlock =
      .ok (⟨[⟨h, 0, p.length⟩], p ++ List.replicate (8192 - p.length) 0⟩, []) := by
    rw [show (2 : Nat) = 1 + 1 from rfl, packLoop_succ,
      if_neg (by norm_num : ¬(8192 : Int) = 0),
      GetLineSized_single h p.length 8192 h0 hp]
    dsimp only
    rw [if_neg h0, hlook]
    dsimp only
    rw [show (1 : Nat) = 0 + 1 from rfl, packLoop_succ,
      if_neg (by push_cast; omega : ¬(8192 : Int) - (p.length : Nat) = 0),
      GetLineSized_nil]
    dsimp only
    simp only [fillBreak, BlockData.Fill, pyBytes, BlockData.AddLine,
      BlockData.emptyBlock, List.nil_append, List.length_nil]
    rw [if_pos (by simp only [BLOCK_SIZE]; push_cast; omega :
      (0 : Int) ≤ (BLOCK_SIZE : Int) - (p.length : Nat))]
    have htn : ((BLOCK_SIZE : Int) - (p.length : Nat)).toNat = 8192 - p.length := by
      simp only [BLOCK_SIZE]; omega
    simp only [Option.map_some, htn]
    rfl
  rw [blocksLoop_succ,
    if_neg (by simp : ¬([(h, p.length)] : List (Nat × Nat)).isEmpty = true)]
  simp only [List.length_cons, List.length_nil]
  rw [hpack]
  show blocksLoop cl 1 [] _ = _
  rw [show (1 : Nat) = 0 + 1 from rfl, blocksLoop_succ,
    if_pos (by simp : ([] : List (Nat × Nat)).isEmpty = true)]
  simp

theorem createblocks_eq (fuel : Nat) (lines : List (String × String)) :
    createblocks fuel lines =
      blocksLoop (buildDicts lines).1 fuel (buildDicts lines).2 [] := rfl

/-! ### C3: no "entry too large" error exists; an oversized payload crashes -/

/-- C3 (refuted): a single caption of 4096 characters has an encoded payload
of 8194 bytes (> 8192), and the conversion does not fail with any dedicated
"entry too large" error: `_createblocks` places the oversized payload into a
block anyway and then crashes with `ValueError` when `Fill` computes
`bytes(8192 - 8194)`. -/
theorem C3_oversized_payload_valueerror :
    createblocks 1 [("x", String.mk (List.replicate 4096 'a'))] = .err .valueError ∧
    (encodePayload (String.mk (List.replicate 4096 'a'))).length = 8194 := by
  have hlen : (encodePayload (String.mk (List.replicate 4096 'a'))).length = 8194 := by
    rw [encodePayload_replicate_length 4096 'a' (by decide)]
  refine ⟨?_, hlen⟩
  have hb : buildDicts [("x", String.mk (List.replicate 4096 'a'))] =
      ([(encodeName "x", encodePayload (String.mk (List.replicate 4096 'a')))],
       [(encodeName "x",
          (encodePayload (String.mk (List.replicate 4096 'a'))).length)]) := rfl
  rw [createblocks_eq]
  rw [hb]
  exact packSingle_oversized _ _ _ (by decide)
    (by simp [List.lookup]) (by rw [hlen]; norm_num)

/-! ### C2: the size parameter of `GetLineSized` is ignored -/

/-- C2 (refuted): with captions of payload lengths 5000 and 4000 bytes, after
the 5000-byte payload is placed the remaining capacity is 3192 bytes, yet
`GetLineSized` — which never consults its `size` argument — still returns the
4000-byte entry, the block overflows, and the conversion crashes with
`ValueError` instead of closing the block. -/
theorem C2_size_parameter_ignored :
    createblocks 1 [("a", String.mk (List.replicate 2499 'b')),
                    ("b", String.mk (List.replicate 1999 'c'))] = .err .valueError ∧
    GetLineSized [(encodeName "b", 4000)] 3192 =
      ((some (encodeName "b"), 4000), []) ∧
    ¬((4000 : Nat) ≤ 3192) ∧
    (encodePayload (String.mk (List.replicate 2499 'b'))).length = 5000 ∧
    (encodePayload (String.mk (List.replicate 1999 'c'))).length = 4000 := by
  have hlen1 : (encodePayload (String.mk (List.replicate 2499 'b'))).length = 5000 := by
    rw [encodePayload_replicate_length 2499 'b' (by decide)]
  have hlen2 : (encodePayload (String.mk (List.replicate 1999 'c'))).length = 4000 := by
    rw [encodePayload_replicate_length 1999 'c' (by decide)]
  refine ⟨?_, GetLineSized_single _ 4000 3192 (by decide) (by norm_num),
    by norm_num, hlen1, hlen2⟩
  have hb : buildDicts [("a", String.mk (List.replicate 2499 'b')),
                        ("b", String.mk (List.replicate 1999 'c'))] =
      ([(encodeName "a", encodePayload (String.mk (List.replicate 2499 'b'))),
        (encodeName "b", encodePayload (String.mk (List.replicate 1999 'c')))],
       [(encodeName "a", (encodePayload (String.mk (List.replicate 2499 'b'))).length),
        (encodeName "b",
          (encodePayload (String.mk (List.replicate 1999 'c'))).length)]) := rfl
  rw [createblocks_eq]
  rw [hb]
  have e1 : (encodeName "a" == encodeName "a") = true := by decide
  have e2 : (encodeName "b" == encodeName "a") = false := by decide
  have e3 : (encodeName "b" == encodeName "b") = true := by decide
  refine packTwo_overflow _ _ _ _ _ (by decide) (by decide) (by decide)
    (by simp [List.lookup, e1]) (by simp [List.lookup, e2, e3]) ?_ ?_ ?_ ?_
  · rw [hlen2]; norm_num
  · rw [hlen1, hlen2]; norm_num
  · rw [hlen1]; norm_num
  · rw [hlen1, hlen2]; norm_num

/-! ### Evaluating `serialize` on a run that produced one single-record block -/

theorem createdirectory_single (h L : Nat) (buf : List Nat)
    (hh : h < 4294967296) (hL : L < 65536) :
    createdirectory [⟨[⟨h, 0, L⟩], buf⟩] =
      some (le4 h ++ le4 0 ++ le2 0 ++ le2 L) := by
  simp [createdirectory, blockDirectory, dirRecord, pack_I, pack_H, hh, hL,
    List.enum, Option.bind]

theorem serialize_single_block (fuel : Nat) (lines : List (String × String))
    (h L : Nat) (buf : List Nat)
    (hb : createblocks fuel lines = .ok [⟨[⟨h, 0, L⟩], buf⟩])
    (hh : h < 4294967296) (hL : L < 65536)
    (hlines : lines.length < 2147483648) :
    serialize fuel lines =
      .ok (MAGIC_KEYWORD ++ le4 1 ++ le4 1 ++ le4 8192 ++ le4 lines.length ++
        le4 512 ++ (le4 h ++ le4 0 ++ le2 0 ++ le2 L) ++
        List.replicate 476 0 ++ buf) := by
  have hdc : pack_i lines.length = some (le4 lines.length) := by
    rw [pack_i, if_pos hlines]
  unfold serialize
  rw [hb]
  simp only [PResult.bind]
  rw [createdirectory_single h L buf hh hL]
  simp only [ofOption]
  have hv : pack_i VERSION = some (le4 1) := by norm_num [pack_i, VERSION]
  have hnb : pack_i ([⟨[⟨h, 0, L⟩], buf⟩] : List BlockData).length = some (le4 1) := by
    norm_num [pack_i]
  have hbs : pack_i BLOCK_SIZE = some (le4 8192) := by norm_num [pack_i, BLOCK_SIZE]
  rw [hv, hnb, hbs, hdc]
  simp only [ofOption, PResult.bind]
  have hflen : (MAGIC_KEYWORD ++ le4 1 ++ le4 1 ++ le4 8192 ++ le4 lines.length).length
      = 20 := by
    simp [MAGIC_KEYWORD]
  have hdlen : (le4 h ++ le4 0 ++ le2 0 ++ le2 L).length = 12 := by simp
  rw [hflen, hdlen]
  norm_num [pack_i, pyBytes, ofOption, PResult.bind]
  simp [List.append_assoc]

theorem createblocks_single_ok (name text : String) (h0 : encodeName name ≠ 0)
    (hlt : (encodePayload text).length < 8192) :
    createblocks 2 [(name, text)] =
      .ok [⟨[⟨encodeName name, 0, (encodePayload text).length⟩],
            encodePayload text ++
              List.replicate (8192 - (encodePayload text).length) 0⟩] := by
  rw [createblocks_eq]
  rw [show buildDicts [(name, text)] =
      ([(encodeName name, encodePayload text)],
       [(encodeName name, (encodePayload text).length)]) from rfl]
  exact packSingle_ok _ _ _ h0 (by simp [List.lookup]) (encodePayload_pos text) hlt

/-! ### C5: the directory-count field on a hash collision -/

theorem createblocks_collision_pair :
    createblocks 2 [("A", "x"), ("a", "y")] =
      .ok [⟨[⟨encodeName "a", 0, (encodePayload "y").length⟩],
            encodePayload "y" ++
              List.replicate (8192 - (encodePayload "y").length) 0⟩] := by
  rw [createblocks_eq]
  rw [show buildDicts [("A", "x"), ("a", "y")] =
      ([(encodeName "a", encodePayload "y")],
       [(encodeName "a", (encodePayload "y").length)]) from rfl]
  exact packSingle_ok _ _ _ (by decide) (by simp [List.lookup])
    (encodePayload_pos _) (by decide)

/-- C5 (refuted as stated): on the input with the two distinct caption names
`"A"` and `"a"` — whose lowercased names collide, so only one hash-keyed entry
and one directory record exist — the 4-byte directory-entry-count field at
bytes 16..19 of the header is `le4 2` (the number of name → text pairs,
`len(self.lines.keys())`), not `le4 1` (the number of directory records):
the field does not equal the number of hash-keyed entries that have records
emitted. -/
theorem C5_collision_field_mismatch :
    (serialize 2 [("A", "x"), ("a", "y")]).getOk.map
        (fun f => (f.drop 16).take 4) = some (le4 2) ∧
    (createblocks 2 [("A", "x"), ("a", "y")]).getOk.map totalRecords = some 1 ∧
    le4 2 ≠ le4 1 := by
  have hcb := createblocks_collision_pair
  have hs := serialize_single_block 2 [("A", "x"), ("a", "y")] (encodeName "a")
    (encodePayload "y").length
    (encodePayload "y" ++ List.replicate (8192 - (encodePayload "y").length) 0)
    hcb (crc32_lt _) (by decide) (by norm_num)
  refine ⟨?_, ?_, by decide⟩
  · rw [hs]
    rfl
  · rw [hcb]
    simp [PResult.getOk, totalRecords]

/-! ### Properties of `scanLargest` and `GetLineSized` -/

theorem scanLargest_mem_aux (l : List (Nat × Nat)) :
    ∀ (acc : Option Nat × Nat) (h n : Nat),
      l.foldl (fun acc kv => if kv.2 > acc.2 then (some kv.1, kv.2) else acc) acc =
        (some h, n) →
      acc = (some h, n) ∨ (h, n) ∈ l := by
  induction l with
  | nil => intro acc h n hf; exact Or.inl hf
  | cons kv t ih =>
    intro acc h n hf
    rcases ih _ h n hf with hstep | hmem
    · dsimp only at hstep
      by_cases hgt : kv.2 > acc.2
      · rw [if_pos hgt] at hstep
        right
        have h1 : kv.1 = h := by injection hstep with ha hb; injection ha
        have h2 : kv.2 = n := by injection hstep
        rw [← h1, ← h2]
        exact List.mem_cons_self kv t
      · rw [if_neg hgt] at hstep
        exact Or.inl hstep
    · exact Or.inr (List.mem_cons_of_mem kv hmem)

theorem scanLargest_mem {l : List (Nat × Nat)} {h n : Nat}
    (hs : scanLargest l = (some h, n)) : (h, n) ∈ l := by
  rcases scanLargest_mem_aux l ((none : Option Nat), 0) h n hs with habs | hmem
  · exact absurd habs (by simp)
  · exact hmem

theorem GetLineSized_falsy {strlen : List (Nat × Nat)} {s : Int}
    {lh : Option Nat} {size : Nat} {strlen' : List (Nat × Nat)}
    (hg : GetLineSized strlen s = ((lh, size), strlen'))
    (hf : pyTruthy lh = false) : strlen' = strlen := by
  unfold GetLineSized at hg
  by_cases ht : pyTruthy (scanLargest strlen).1 = true
  · rw [if_pos ht] at hg
    have h1 : (scanLargest strlen).1 = lh := by
      have := congrArg (fun x => x.1.1) hg
      simpa using this
    rw [h1, hf] at ht
    exact absurd ht (by simp)
  · rw [if_neg ht] at hg
    have h2 := congrArg Prod.snd hg
    simpa using h2.symm

theorem GetLineSized_truthy {strlen : List (Nat × Nat)} {s : Int}
    {h size : Nat} {strlen' : List (Nat × Nat)}
    (hg : GetLineSized strlen s = ((some h, size), strlen')) (h0 : h ≠ 0) :
    (h, size) ∈ strlen ∧ strlen' = eraseKey h strlen := by
  unfold GetLineSized at hg
  have ht : pyTruthy (scanLargest strlen).1 = true := by
    by_cases hc : pyTruthy (scanLargest strlen).1 = true
    · exact hc
    · rw [if_neg hc] at hg
      have h1 : (scanLargest strlen).1 = some h := by
        have := congrArg (fun x => x.1.1) hg
        simpa using this
      rw [h1] at hc
      exact absurd (by simp [pyTruthy, h0]) hc
  rw [if_pos ht] at hg
  have h1 : scanLargest strlen = (some h, size) := by
    have ha := congrArg (fun x => x.1.1) hg
    have hb := congrArg (fun x => x.1.2) hg
    simp only at ha hb
    calc scanLargest strlen = ((scanLargest strlen).1, (scanLargest strlen).2) := rfl
    _ = (some h, size) := by rw [ha, hb]
  refine ⟨scanLargest_mem h1, ?_⟩
  have h2 : strlen' = strlen.filter (fun kv => some kv.1 ≠ (scanLargest strlen).1) := by
    have := congrArg (fun x => x.2) hg
    simpa using this.symm
  rw [h2, h1]
  unfold eraseKey
  apply List.filter_congr
  intro kv _
  simp

theorem keysOf_eraseKey {α : Type} (h : Nat) (d : List (Nat × α)) :
    keysOf (eraseKey h d) = (keysOf d).filter (fun k => decide (k ≠ h)) := by
  induction d with
  | nil => rfl
  | cons kv t ih =>
    by_cases hk : kv.1 ≠ h
    · simp only [eraseKey, keysOf, List.filter_cons, List.map_cons] at *
      rw [if_pos (by simpa using hk), if_pos (by simpa using hk)]
      simp only [List.map_cons]
      rw [← ih]
    · push_neg at hk
      simp only [eraseKey, keysOf, List.filter_cons, List.map_cons] at *
      rw [if_neg (by simpa using hk), if_neg (by simpa using hk)]
      exact ih

theorem strlenWF_eraseKey {cl : List (Nat × List Nat)} {strlen : List (Nat × Nat)}
    (hw : StrlenWF cl strlen) (h : Nat) : StrlenWF cl (eraseKey h strlen) := by
  obtain ⟨hnd, hval⟩ := hw
  constructor
  · rw [keysOf_eraseKey]
    exact hnd.filter _
  · intro kv hkv
    exact hval kv (List.mem_of_mem_filter hkv)

theorem keys_perm_eraseKey {strlen : List (Nat × Nat)} {h size : Nat}
    (hnd : (keysOf strlen).Nodup) (hmem : (h, size) ∈ strlen) :
    List.Perm (keysOf strlen) (h :: keysOf (eraseKey h strlen)) := by
  have hk : h ∈ keysOf strlen := by
    unfold keysOf
    exact List.mem_map_of_mem Prod.fst hmem
  have hperm := List.perm_cons_erase hk
  have herase : (keysOf strlen).erase h =
      (keysOf strlen).filter (fun k => decide (k ≠ h)) := by
    rw [hnd.erase_eq_filter]
    apply List.filter_congr
    intro k _
    by_cases hkh : k = h <;> simp [hkh]
  rw [keysOf_eraseKey]
  rw [herase] at hperm
  exact hperm

/-! ### Invariants of block construction -/

theorem placedOK_append {cl : List (Nat × List Nat)} {buf : List Nat}
    {ld : LineData} (h : PlacedOK cl buf ld) (z : List Nat) :
    PlacedOK cl (buf ++ z) ld := by
  obtain ⟨p, hlk, hlen, hle, hseg⟩ := h
  refine ⟨p, hlk, hlen, ?_, ?_⟩
  · rw [List.length_append]
    omega
  · rw [List.drop_append_of_le_length (by omega),
      List.take_append_of_le_length (by rw [List.length_drop]; omega)]
    exact hseg

theorem payloadLen_addLine (b : BlockData) (h : Nat) (p : List Nat) :
    (b.AddLine h p).payloadLen = b.payloadLen + p.length := by
  simp [BlockData.AddLine, BlockData.payloadLen]

theorem hashes_addLine (b : BlockData) (h : Nat) (p : List Nat) :
    (b.AddLine h p).hashes = b.hashes ++ [h] := by
  simp [BlockData.AddLine, BlockData.hashes]

theorem length_addLine (b : BlockData) (h : Nat) (p : List Nat) :
    (b.AddLine h p).block.length = b.block.length + p.length := by
  simp [BlockData.AddLine]

theorem building_addLine {cl : List (Nat × List Nat)} {b : BlockData} {h : Nat}
    {p : List Nat} (hB : Building cl b) (hlk : cl.lookup h = some p) :
    Building cl (b.AddLine h p) := by
  obtain ⟨hwf, hlen⟩ := hB
  constructor
  · intro ld hld
    simp only [BlockData.AddLine, List.mem_append, List.mem_singleton] at hld
    rcases hld with hold | hnew
    · exact placedOK_append (hwf ld hold) p
    · subst hnew
      refine ⟨p, hlk, rfl, ?_, ?_⟩
      · simp [BlockData.AddLine]
      · show (((b.block ++ p).drop b.block.length).take p.length) = p
        rw [List.drop_left]
        exact List.take_length p
  · rw [length_addLine, payloadLen_addLine, hlen]

theorem fill_spec {cl : List (Nat × List Nat)} {b b' : BlockData}
    (hB : Building cl b) (hf : b.Fill = some b') :
    GoodBlock cl b' ∧ b'.line_data = b.line_data := by
  obtain ⟨hwf, hlen⟩ := hB
  unfold BlockData.Fill pyBytes at hf
  by_cases hle : (0 : Int) ≤ (BLOCK_SIZE : Int) - (b.block.length : Int)
  · rw [if_pos hle] at hf
    rw [Option.map_some'] at hf
    injection hf with hf
    have hlb : b.block.length ≤ BLOCK_SIZE := by
      have h8 : (BLOCK_SIZE : Int) = 8192 := by norm_num [BLOCK_SIZE]
      rw [h8] at hle
      simp only [BLOCK_SIZE]
      omega
    have htn : ((BLOCK_SIZE : Int) - (b.block.length : Int)).toNat =
        BLOCK_SIZE - b.block.length := by
      simp only [BLOCK_SIZE]
      omega
    rw [htn] at hf
    subst hf
    refine ⟨⟨?_, ?_, ?_, ?_⟩, rfl⟩
    · intro ld hld
      exact placedOK_append (hwf ld hld) _
    · simp only [List.length_append, List.length_replicate]
      omega
    · show (b.line_data.map LineData.len).sum ≤ BLOCK_SIZE
      rw [show (b.line_data.map LineData.len).sum = b.payloadLen from rfl, ← hlen]
      exact hlb
    · show ((b.block ++ List.replicate (BLOCK_SIZE - b.block.length) 0).drop
          (b.line_data.map LineData.len).sum) =
        List.replicate (BLOCK_SIZE - (b.line_data.map LineData.len).sum) 0
      rw [show (b.line_data.map LineData.len).sum = b.payloadLen from rfl, ← hlen,
        List.drop_left]
  · rw [if_neg hle] at hf
    exact absurd hf (by simp)

theorem fillBreak_ok_spec {cl : List (Nat × List Nat)} {block b : BlockData}
    {strlen₂ strlen' : List (Nat × Nat)}
    (hpk : fillBreak block strlen₂ = .ok (b, strlen'))
    (hB : Building cl block) :
    GoodBlock cl b ∧ b.hashes = block.hashes ∧ b.payloadLen = block.payloadLen ∧
      strlen' = strlen₂ := by
  unfold fillBreak at hpk
  rcases hf : block.Fill with _ | bf
  · rw [hf] at hpk
    exact absurd hpk (by simp)
  · rw [hf] at hpk
    injection hpk with h'
    injection h' with h1 h2
    obtain ⟨hGood, hld⟩ := fill_spec hB hf
    subst h1 h2
    exact ⟨hGood, by simp [BlockData.hashes, hld],
      by simp [BlockData.payloadLen, hld], rfl⟩

/-- Partial-correctness specification of the inner packing loop: whenever it
returns a finished block, that block is well-formed (coherent placements,
exactly `BLOCK_SIZE` buffer bytes, at most `BLOCK_SIZE` payload bytes,
zero-filled tail), the dict invariant is preserved, and the placed hashes
together with the remaining keys are a permutation of the incoming keys. -/
theorem packLoop_spec (cl : List (Nat × List Nat)) :
    ∀ (fuel : Nat) (remaining : Int) (strlen : List (Nat × Nat))
      (block b : BlockData) (strlen' : List (Nat × Nat)),
      packLoop cl fuel remaining strlen block = .ok (b, strlen') →
      StrlenWF cl strlen →
      Building cl block →
      remaining = 8192 - (block.block.length : Int) →
      GoodBlock cl b ∧ StrlenWF cl strlen' ∧
      List.Perm (b.hashes ++ keysOf strlen') (block.hashes ++ keysOf strlen) := by
  intro fuel
  induction fuel with
  | zero =>
    intro rem strlen block b strlen' hpk hWF hB hrem
    exact absurd hpk (by simp [packLoop])
  | succ n ih =>
    intro rem strlen block b strlen' hpk hWF hB hrem
    rw [packLoop_succ] at hpk
    by_cases h0 : rem = 0
    · rw [if_pos h0] at hpk
      injection hpk with h'
      injection h' with h1 h2
      subst h1 h2
      have hlen8192 : block.block.length = 8192 := by omega
      refine ⟨⟨hB.1, ?_, ?_, ?_⟩, hWF, List.Perm.refl _⟩
      · rw [hlen8192]; rfl
      · rw [← hB.2, hlen8192]; norm_num [BLOCK_SIZE]
      · rw [← hB.2, List.drop_length, hlen8192]
        norm_num [BLOCK_SIZE]
    · rw [if_neg h0] at hpk
      rcases hGL : GetLineSized strlen rem with ⟨⟨lh, size⟩, strlen₂⟩
      rw [hGL] at hpk
      cases lh with
      | none =>
        dsimp only at hpk
        obtain ⟨hGood, hhash, hpl, hs2⟩ := fillBreak_ok_spec hpk hB
        have hs : strlen₂ = strlen := GetLineSized_falsy hGL (by simp [pyTruthy])
        subst hs2
        rw [hs, hhash]
        exact ⟨hGood, hs ▸ hWF, List.Perm.refl _⟩
      | some h =>
        dsimp only at hpk
        by_cases hz : h = 0
        · subst hz
          rw [if_pos rfl] at hpk
          obtain ⟨hGood, hhash, hpl, hs2⟩ := fillBreak_ok_spec hpk hB
          have hs : strlen₂ = strlen := GetLineSized_falsy hGL (by simp [pyTruthy])
          subst hs2
          rw [hs, hhash]
          exact ⟨hGood, hs ▸ hWF, List.Perm.refl _⟩
        · rw [if_neg hz] at hpk
          rcases hlk : cl.lookup h with _ | line
          · rw [hlk] at hpk
            exact absurd hpk (by simp)
          · rw [hlk] at hpk
            dsimp only at hpk
            obtain ⟨hmem, herase⟩ := GetLineSized_truthy hGL hz
            obtain ⟨p, hlkp, hsize⟩ := hWF.2 (h, size) hmem
            rw [hlk] at hlkp
            injection hlkp with hpe
            have hsz : size = line.length := by rw [hpe]; exact hsize
            have hB' := building_addLine hB hlk
            have hWF' : StrlenWF cl strlen₂ := herase ▸ strlenWF_eraseKey hWF h
            have hrem' : rem - (size : Int) =
                8192 - ((block.AddLine h line).block.length : Int) := by
              rw [length_addLine, hrem, hsz]
              push_cast
              ring
            obtain ⟨hGood, hWF'', hperm⟩ := ih _ _ _ _ _ hpk hWF' hB' hrem'
            refine ⟨hGood, hWF'', ?_⟩
            have hstep : List.Perm (block.hashes ++ keysOf strlen)
                (block.hashes ++ (h :: keysOf (eraseKey h strlen))) :=
              List.Perm.append_left _ (keys_perm_eraseKey hWF.1 hmem)
            have heq : (block.AddLine h line).hashes ++ keysOf strlen₂ =
                block.hashes ++ (h :: keysOf (eraseKey h strlen)) := by
              rw [hashes_addLine, herase, List.append_assoc]
              rfl
            exact (hperm.trans (heq ▸ List.Perm.refl _)).trans hstep.symm

theorem placedHashes_append (bs1 bs2 : List BlockData) :
    placedHashes (bs1 ++ bs2) = placedHashes bs1 ++ placedHashes bs2 := by
  simp [placedHashes]

/-- Partial-correctness specification of the outer block loop: on success all
blocks are well-formed and the hashes placed across the produced blocks,
beyond those already in `acc`, are a permutation of the keys of the dict. -/
theorem blocksLoop_spec (cl : List (Nat × List Nat)) :
    ∀ (fuel : Nat) (strlen : List (Nat × Nat)) (acc bs : List BlockData),
      blocksLoop cl fuel strlen acc = .ok bs →
      StrlenWF cl strlen →
      (∀ b ∈ acc, GoodBlock cl b) →
      (∀ b ∈ bs, GoodBlock cl b) ∧
      List.Perm (placedHashes bs) (placedHashes acc ++ keysOf strlen) := by
  intro fuel
  induction fuel with
  | zero =>
    intro strlen acc bs hbl hWF hacc
    exact absurd hbl (by simp [blocksLoop])
  | succ n ih =>
    intro strlen acc bs hbl hWF hacc
    rw [blocksLoop_succ] at hbl
    by_cases hemp : strlen.isEmpty = true
    · rw [if_pos hemp] at hbl
      injection hbl with hbs
      subst hbs
      have hnil : strlen = [] := List.isEmpty_iff.mp hemp
      subst hnil
      exact ⟨hacc, by simp [keysOf]⟩
    · rw [if_neg hemp] at hbl
      rcases hpk : packLoop cl (strlen.length + 1) 8192 strlen BlockData.emptyBlock
        with r | e
      · rw [hpk] at hbl
        simp only [PResult.bind] at hbl
        rcases r with ⟨blk, strlen₂⟩
        have hBempty : Building cl BlockData.emptyBlock :=
          ⟨fun ld hld => absurd hld (by simp [BlockData.emptyBlock]), rfl⟩
        obtain ⟨hGood, hWF₂, hperm⟩ := packLoop_spec cl _ _ _ _ _ _ hpk hWF hBempty
          (by simp [BlockData.emptyBlock])
        have hacc' : ∀ b ∈ acc ++ [blk], GoodBlock cl b := by
          intro b hb
          rcases List.mem_append.mp hb with hin | hone
          · exact hacc b hin
          · rw [List.mem_singleton.mp hone]
            exact hGood
        obtain ⟨hbsGood, hbsPerm⟩ := ih _ _ _ hbl hWF₂ hacc'
        refine ⟨hbsGood, ?_⟩
        have h1 : placedHashes (acc ++ [blk]) ++ keysOf strlen₂ =
            placedHashes acc ++ (blk.hashes ++ keysOf strlen₂) := by
          rw [placedHashes_append, List.append_assoc]
          simp [placedHashes]
        have h2 : List.Perm (placedHashes acc ++ (blk.hashes ++ keysOf strlen₂))
            (placedHashes acc ++ keysOf strlen) := by
          apply List.Perm.append_left
          have : BlockData.emptyBlock.hashes ++ keysOf strlen = keysOf strlen := by
            simp [BlockData.hashes, BlockData.emptyBlock]
          rw [← this]
          exact hperm
        exact hbsPerm.trans (h1 ▸ h2)
      · rw [hpk] at hbl
        exact absurd hbl (by simp [PResult.bind])
      · rw [hpk] at hbl
        exact absurd hbl (by simp [PResult.bind])

/-! ### Properties of the dicts built by the encoder -/

theorem lookup_isSome_iff {α : Type} (d : List (Nat × α)) (k : Nat) :
    (d.lookup k).isSome = true ↔ k ∈ keysOf d := by
  induction d with
  | nil => simp [keysOf]
  | cons kv t ih =>
    rcases kv with ⟨k', v⟩
    by_cases he : k = k'
    · subst he
      simp [List.lookup, keysOf]
    · simp only [List.lookup, keysOf, List.map_cons, List.mem_cons]
      rw [show (k == k') = false from by simpa using he]
      simp only [keysOf] at ih
      rw [ih]
      constructor
      · exact fun hm => Or.inr hm
      · intro hm
        rcases hm with hk | hm
        · exact absurd hk he
        · exact hm

theorem lookup_cons_eq {α : Type} (k : Nat) (v : α) (t : List (Nat × α)) :
    List.lookup k ((k, v) :: t) = some v := by
  simp [List.lookup]

theorem lookup_cons_ne {α : Type} {k a : Nat} (v : α) (t : List (Nat × α))
    (h : k ≠ a) : List.lookup k ((a, v) :: t) = List.lookup k t := by
  simp [List.lookup, show (k == a) = false from by simpa using h]

theorem lookup_update_mem {α : Type} {d : List (Nat × α)} {k : Nat} (v : α)
    (hk : k ∈ keysOf d) :
    (d.map (fun kv => if kv.1 = k then (k, v) else kv)).lookup k = some v := by
  induction d with
  | nil => simp [keysOf] at hk
  | cons kv t ih =>
    rcases kv with ⟨a, b⟩
    by_cases he : a = k
    · subst he
      rw [List.map_cons, if_pos (show ((a, b) : Nat × α).1 = a from rfl),
        lookup_cons_eq]
    · have hk' : k ∈ keysOf t := by
        simp only [keysOf, List.map_cons, List.mem_cons] at hk
        rcases hk with hk1 | hk2
        · exact absurd hk1.symm he
        · exact hk2
      rw [List.map_cons, if_neg (show ¬((a, b) : Nat × α).1 = k from he),
        lookup_cons_ne _ _ (fun hc => he hc.symm)]
      exact ih hk'

theorem lookup_update_ne {α : Type} (d : List (Nat × α)) (k k' : Nat) (v : α)
    (hne : k' ≠ k) :
    (d.map (fun kv => if kv.1 = k then (k, v) else kv)).lookup k' = d.lookup k' := by
  induction d with
  | nil => rfl
  | cons kv t ih =>
    rcases kv with ⟨a, b⟩
    by_cases ha : a = k
    · subst ha
      rw [List.map_cons, if_pos (show ((a, b) : Nat × α).1 = a from rfl),
        lookup_cons_ne _ _ hne, lookup_cons_ne _ _ hne]
      exact ih
    · rw [List.map_cons, if_neg (show ¬((a, b) : Nat × α).1 = k from ha)]
      by_cases hk'a : k' = a
      · subst hk'a
        rw [lookup_cons_eq, lookup_cons_eq]
      · rw [lookup_cons_ne _ _ hk'a, lookup_cons_ne _ _ hk'a]
        exact ih

theorem lookup_append_of_none {α : Type} (d e : List (Nat × α)) (a : Nat)
    (hd : d.lookup a = none) : (d ++ e).lookup a = e.lookup a := by
  induction d with
  | nil => rfl
  | cons kv t ih =>
    rcases kv with ⟨k, v⟩
    by_cases hak : a = k
    · subst hak
      rw [lookup_cons_eq] at hd
      exact absurd hd (by simp)
    · rw [lookup_cons_ne _ _ hak] at hd
      rw [List.cons_append, lookup_cons_ne _ _ hak]
      exact ih hd

theorem lookup_append_of_some {α : Type} (d e : List (Nat × α)) (a : Nat) {w : α}
    (hd : d.lookup a = some w) : (d ++ e).lookup a = some w := by
  induction d with
  | nil => exact absurd hd (by simp [List.lookup])
  | cons kv t ih =>
    rcases kv with ⟨k, v⟩
    by_cases hak : a = k
    · subst hak
      rw [lookup_cons_eq] at hd
      rw [List.cons_append, lookup_cons_eq]
      exact hd
    · rw [lookup_cons_ne _ _ hak] at hd
      rw [List.cons_append, lookup_cons_ne _ _ hak]
      exact ih hd

theorem lookup_dictSet_self {α : Type} (d : List (Nat × α)) (k : Nat) (v : α) :
    (dictSet d k v).lookup k = some v := by
  unfold dictSet
  by_cases hs : (d.lookup k).isSome = true
  · rw [if_pos hs]
    exact lookup_update_mem v ((lookup_isSome_iff d k).mp hs)
  · rw [if_neg hs]
    rw [lookup_append_of_none d _ k (Option.not_isSome_iff_eq_none.mp hs)]
    exact lookup_cons_eq k v []

theorem lookup_dictSet_ne {α : Type} (d : List (Nat × α)) (k k' : Nat) (v : α)
    (hne : k' ≠ k) :
    (dictSet d k v).lookup k' = d.lookup k' := by
  unfold dictSet
  by_cases hs : (d.lookup k).isSome = true
  · rw [if_pos hs]
    exact lookup_update_ne d k k' v hne
  · rw [if_neg hs]
    rcases hd : d.lookup k' with _ | w
    · rw [lookup_append_of_none d _ k' hd, lookup_cons_ne _ _ hne]
      rfl
    · exact lookup_append_of_some d _ k' hd

theorem keysOf_dictSet {α : Type} (d : List (Nat × α)) (k : Nat) (v : α) :
    keysOf (dictSet d k v) =
      if (d.lookup k).isSome then keysOf d else keysOf d ++ [k] := by
  unfold dictSet
  by_cases hs : (d.lookup k).isSome = true
  · rw [if_pos hs, if_pos hs]
    unfold keysOf
    rw [List.map_map]
    apply List.map_congr_left
    intro kv _
    by_cases he : kv.1 = k
    · simp [he]
    · simp [he]
  · rw [if_neg hs, if_neg hs]
    simp [keysOf]

theorem dictsWF_step {cl : List (Nat × List Nat)} {cs : List (Nat × Nat)}
    (hD : DictsWF cl cs) (h : Nat) (p : List Nat) :
    DictsWF (dictSet cl h p) (dictSet cs h p.length) := by
  obtain ⟨hkeys, hnd, hval⟩ := hD
  have hiff : (cs.lookup h).isSome = (cl.lookup h).isSome := by
    by_cases hmem : h ∈ keysOf cl
    · rw [(lookup_isSome_iff cs h).mpr (by rw [hkeys]; exact hmem),
        (lookup_isSome_iff cl h).mpr hmem]
    · have h1 : ¬(cl.lookup h).isSome = true :=
        fun hs => hmem ((lookup_isSome_iff cl h).mp hs)
      have h2 : ¬(cs.lookup h).isSome = true :=
        fun hs => hmem (by rw [← hkeys]; exact (lookup_isSome_iff cs h).mp hs)
      rw [Bool.not_eq_true] at h1 h2
      rw [h1, h2]
  refine ⟨?_, ?_, ?_⟩
  · rw [keysOf_dictSet, keysOf_dictSet, hiff, hkeys]
  · rw [keysOf_dictSet]
    by_cases hs : (cs.lookup h).isSome = true
    · rw [if_pos hs]
      exact hnd
    · rw [if_neg hs]
      have hm : h ∉ keysOf cs := fun hmem => hs ((lookup_isSome_iff cs h).mpr hmem)
      simp [List.nodup_append, hnd, hm]
  · intro kv hkv
    unfold dictSet at hkv
    by_cases hs : (cs.lookup h).isSome = true
    · rw [if_pos hs] at hkv
      obtain ⟨kv₀, hkv₀, hmap⟩ := List.mem_map.mp hkv
      by_cases he : kv₀.1 = h
      · rw [if_pos he] at hmap
        subst hmap
        exact ⟨p, by rw [lookup_dictSet_self], rfl⟩
      · rw [if_neg he] at hmap
        subst hmap
        obtain ⟨q, hq, hlq⟩ := hval kv₀ hkv₀
        exact ⟨q, by rw [lookup_dictSet_ne _ _ _ _ he]; exact hq, hlq⟩
    · rw [if_neg hs] at hkv
      rcases List.mem_append.mp hkv with hin | hnew
      · obtain ⟨q, hq, hlq⟩ := hval kv hin
        have hne : kv.1 ≠ h := by
          intro hcon
          apply hs
          apply (lookup_isSome_iff cs h).mpr
          rw [← hcon]
          exact List.mem_map_of_mem Prod.fst hin
        exact ⟨q, by rw [lookup_dictSet_ne _ _ _ _ hne]; exact hq, hlq⟩
      · rw [List.mem_singleton.mp hnew]
        exact ⟨p, by rw [lookup_dictSet_self], rfl⟩

/-- The two dicts built by the first loop of `_createblocks` have the same
unique keys, and `crc_strlen` records the exact byte length of each payload of
`crc_line`. -/
theorem buildDicts_wf (lines : List (String × String)) :
    DictsWF (buildDicts lines).1 (buildDicts lines).2 := by
  have hgen : ∀ (ls : List (String × String)) (cl : List (Nat × List Nat))
      (cs : List (Nat × Nat)), DictsWF cl cs →
      DictsWF
        (ls.foldl (fun acc nl =>
          let h := encodeName nl.1
          let p := encodePayload nl.2
          (dictSet acc.1 h p, dictSet acc.2 h p.length)) (cl, cs)).1
        (ls.foldl (fun acc nl =>
          let h := encodeName nl.1
          let p := encodePayload nl.2
          (dictSet acc.1 h p, dictSet acc.2 h p.length)) (cl, cs)).2 := by
    intro ls
    induction ls with
    | nil => intro cl cs hD; exact hD
    | cons nl t ih =>
      intro cl cs hD
      rw [List.foldl_cons]
      exact ih _ _ (dictsWF_step hD _ _)
  have hbase : DictsWF ([] : List (Nat × List Nat)) ([] : List (Nat × Nat)) :=
    ⟨rfl, List.nodup_nil, fun kv hkv => absurd hkv (List.not_mem_nil kv)⟩
  exact hgen lines [] [] hbase

/-! ### C1: invariants of the produced block sequence -/

/-- C1: whenever `_createblocks` returns a sequence of blocks, every encoded
payload (entry of the hash → payload dict) is placed in exactly one block
(the placed hashes are a permutation of the — unique — dict keys), no payload
is split (each placement holds the whole payload contiguously inside its
block's buffer), and the payload bytes written into each block never exceed
8192. -/
theorem C1_block_packing_invariants (fuel : Nat) (lines : List (String × String))
    (bs : List BlockData) (h : createblocks fuel lines = .ok bs) :
    (∀ b ∈ bs, b.payloadLen ≤ BLOCK_SIZE) ∧
    (keysOf (buildDicts lines).1).Nodup ∧
    List.Perm (placedHashes bs) (keysOf (buildDicts lines).1) ∧
    (∀ b ∈ bs, ∀ ld ∈ b.line_data, ∃ p,
      (buildDicts lines).1.lookup ld.hash = some p ∧ ld.len = p.length ∧
      (b.block.drop ld.offset).take ld.len = p) := by
  rw [createblocks_eq] at h
  obtain ⟨hkeys, hWF⟩ := buildDicts_wf lines
  obtain ⟨hGood, hperm⟩ := blocksLoop_spec _ _ _ _ _ h hWF
    (fun b hb => absurd hb (List.not_mem_nil b))
  refine ⟨fun b hb => (hGood b hb).2.2.1, by rw [← hkeys]; exact hWF.1, ?_, ?_⟩
  · rw [← hkeys]
    have hnil : placedHashes ([] : List BlockData) ++ keysOf (buildDicts lines).2 =
        keysOf (buildDicts lines).2 := by simp [placedHashes]
    exact hperm.trans (hnil ▸ List.Perm.refl _)
  · intro b hb ld hld
    obtain ⟨p, hp1, hp2, _, hp4⟩ := (hGood b hb).1 ld hld
    exact ⟨p, hp1, hp2, hp4⟩

/-- Witness for C1 at the concrete input `{"a": "x"}`. -/
theorem C1_block_packing_invariants_witness :
    (createblocks 2 [("a", "x")] = .ok
      [⟨[⟨encodeName "a", 0, (encodePayload "x").length⟩],
        encodePayload "x" ++ List.replicate (8192 - (encodePayload "x").length) 0⟩]) ∧
    ((∀ b ∈ [(⟨[⟨encodeName "a", 0, (encodePayload "x").length⟩],
        encodePayload "x" ++ List.replicate (8192 - (encodePayload "x").length) 0⟩ :
          BlockData)], b.payloadLen ≤ BLOCK_SIZE) ∧
     (keysOf (buildDicts [("a", "x")]).1).Nodup ∧
     List.Perm (placedHashes
       [⟨[⟨encodeName "a", 0, (encodePayload "x").length⟩],
        encodePayload "x" ++ List.replicate (8192 - (encodePayload "x").length) 0⟩])
       (keysOf (buildDicts [("a", "x")]).1) ∧
     (∀ b ∈ [(⟨[⟨encodeName "a", 0, (encodePayload "x").length⟩],
        encodePayload "x" ++ List.replicate (8192 - (encodePayload "x").length) 0⟩ :
          BlockData)], ∀ ld ∈ b.line_data, ∃ p,
        (buildDicts [("a", "x")]).1.lookup ld.hash = some p ∧ ld.len = p.length ∧
        (b.block.drop ld.offset).take ld.len = p)) :=
  have hw : createblocks 2 [("a", "x")] = .ok
      [⟨[⟨encodeName "a", 0, (encodePayload "x").length⟩],
        encodePayload "x" ++ List.replicate (8192 - (encodePayload "x").length) 0⟩] :=
    createblocks_single_ok "a" "x" (by decide) (by decide)
  ⟨hw, C1_block_packing_invariants 2 [("a", "x")] _ hw⟩

/-! ### Inversion of a successful serialization -/

theorem PResult.bind_ok_iff {α β : Type} (x : PResult α) (f : α → PResult β)
    (v : β) : x.bind f = .ok v ↔ ∃ a, x = .ok a ∧ f a = .ok v := by
  cases x <;> simp [PResult.bind]

theorem ofOption_ok_iff {α : Type} (e : PErr) (o : Option α) (a : α) :
    ofOption e o = .ok a ↔ o = some a := by
  cases o <;> simp [ofOption]

theorem pack_i_some_iff (n : Nat) (l : List Nat) :
    pack_i n = some l ↔ n < 2147483648 ∧ l = le4 n := by
  unfold pack_i
  by_cases h : n < 2147483648
  · rw [if_pos h]
    simp [h, eq_comm]
  · rw [if_neg h]
    simp [h]

theorem pyBytes_some_iff (n : Int) (l : List Nat) :
    pyBytes n = some l ↔ 0 ≤ n ∧ l = List.replicate n.toNat 0 := by
  unfold pyBytes
  by_cases h : (0 : Int) ≤ n
  · rw [if_pos h]
    simp [h, eq_comm]
  · rw [if_neg h]
    simp [h]

theorem raw_lt_offset (raw : Nat) : raw < (raw / 512 + 1) * 512 := by
  have h1 := Nat.div_add_mod raw 512
  have h2 : raw % 512 < 512 := Nat.mod_lt _ (by norm_num)
  omega

theorem serialize_ok_inv (fuel : Nat) (lines : List (String × String))
    (file : List Nat) (hs : serialize fuel lines = .ok file) :
    ∃ bs directory,
      createblocks fuel lines = .ok bs ∧
      createdirectory bs = some directory ∧
      bs.length < 2147483648 ∧ lines.length < 2147483648 ∧
      ((24 + directory.length) / 512 + 1) * 512 < 2147483648 ∧
      file =
        MAGIC_KEYWORD ++ le4 VERSION ++ le4 bs.length ++ le4 BLOCK_SIZE ++
          le4 lines.length ++ le4 (((24 + directory.length) / 512 + 1) * 512) ++
          directory ++
          List.replicate
            ((((24 + directory.length) / 512 + 1) * 512) - (24 + directory.length))
            0 ++
          (bs.map BlockData.block).flatten := by
  unfold serialize at hs
  rw [PResult.bind_ok_iff] at hs
  obtain ⟨bs, hbs, hs⟩ := hs
  rw [PResult.bind_ok_iff] at hs
  obtain ⟨directory, hdir, hs⟩ := hs
  rw [ofOption_ok_iff] at hdir
  rw [PResult.bind_ok_iff] at hs
  obtain ⟨verB, hver, hs⟩ := hs
  rw [ofOption_ok_iff, pack_i_some_iff] at hver
  rw [PResult.bind_ok_iff] at hs
  obtain ⟨nbB, hnb, hs⟩ := hs
  rw [ofOption_ok_iff, pack_i_some_iff] at hnb
  rw [PResult.bind_ok_iff] at hs
  obtain ⟨bsB, hbsz, hs⟩ := hs
  rw [ofOption_ok_iff, pack_i_some_iff] at hbsz
  rw [PResult.bind_ok_iff] at hs
  obtain ⟨dcB, hdc, hs⟩ := hs
  rw [ofOption_ok_iff, pack_i_some_iff] at hdc
  dsimp only at hs
  rw [PResult.bind_ok_iff] at hs
  obtain ⟨offB, hoff, hs⟩ := hs
  rw [ofOption_ok_iff, pack_i_some_iff] at hoff
  rw [PResult.bind_ok_iff] at hs
  obtain ⟨padding, hpad, hs⟩ := hs
  rw [ofOption_ok_iff, pyBytes_some_iff] at hpad
  injection hs with hfile
  obtain ⟨hver1, hver2⟩ := hver
  obtain ⟨hnb1, hnb2⟩ := hnb
  obtain ⟨hbsz1, hbsz2⟩ := hbsz
  obtain ⟨hdc1, hdc2⟩ := hdc
  obtain ⟨hoff1, hoff2⟩ := hoff
  obtain ⟨hpad1, hpad2⟩ := hpad
  subst hver2 hnb2 hbsz2 hdc2 hoff2 hpad2
  have hlen20 : (MAGIC_KEYWORD ++ le4 VERSION ++ le4 bs.length ++ le4 BLOCK_SIZE ++
      le4 lines.length).length = 20 := by
    simp [MAGIC_KEYWORD]
  rw [hlen20] at hoff1 hfile
  have hraw : 20 + directory.length + 4 = 24 + directory.length := by omega
  rw [hraw] at hoff1 hfile
  have htn : ((((((24 + directory.length) / 512 + 1) * 512 : Nat) : Int)) -
      ((24 + directory.length : Nat) : Int)).toNat =
      (((24 + directory.length) / 512 + 1) * 512) - (24 + directory.length) := by
    have := raw_lt_offset (24 + directory.length)
    omega
  rw [htn] at hfile
  exact ⟨bs, directory, hbs, hdir, hnb1, hdc1, hoff1, hfile.symm⟩

/-! ### C5 (amended): what the directory-entry-count field really counts -/

theorem createblocks_ok_spec (fuel : Nat) (lines : List (String × String))
    (bs : List BlockData) (h : createblocks fuel lines = .ok bs) :
    (∀ b ∈ bs, GoodBlock (buildDicts lines).1 b) ∧
    List.Perm (placedHashes bs) (keysOf (buildDicts lines).1) := by
  rw [createblocks_eq] at h
  obtain ⟨hkeys, hWF⟩ := buildDicts_wf lines
  obtain ⟨hGood, hperm⟩ := blocksLoop_spec _ _ _ _ _ h hWF
    (fun b hb => absurd hb (List.not_mem_nil b))
  refine ⟨hGood, ?_⟩
  rw [← hkeys]
  have hnil : placedHashes ([] : List BlockData) ++ keysOf (buildDicts lines).2 =
      keysOf (buildDicts lines).2 := by simp [placedHashes]
  exact hperm.trans (hnil ▸ List.Perm.refl _)

theorem totalRecords_eq_length (bs : List BlockData) :
    totalRecords bs = (placedHashes bs).length := by
  induction bs with
  | nil => rfl
  | cons b t ih =>
    simp only [totalRecords, placedHashes, List.map_cons, List.sum_cons,
      List.flatten_cons, List.length_append] at *
    rw [ih]
    simp [BlockData.hashes]

theorem buildDicts_keys_aux :
    ∀ (ls : List (String × String)) (cl : List (Nat × List Nat))
      (cs : List (Nat × Nat)) (K : List Nat),
      keysOf cl = K →
      (K ++ ls.map (fun nl => encodeName nl.1)).Nodup →
      keysOf (ls.foldl (fun acc nl =>
        let h := encodeName nl.1
        let p := encodePayload nl.2
        (dictSet acc.1 h p, dictSet acc.2 h p.length)) (cl, cs)).1 =
      K ++ ls.map (fun nl => encodeName nl.1) := by
  intro ls
  induction ls with
  | nil =>
    intro cl cs K hK hnd
    simpa using hK
  | cons nl t ih =>
    intro cl cs K hK hnd
    rw [List.foldl_cons]
    have hnotmem : encodeName nl.1 ∉ K := by
      intro hmem
      have : ¬(K ++ (nl :: t).map (fun nl => encodeName nl.1)).Nodup := by
        simp only [List.map_cons]
        intro hcon
        rcases List.nodup_append.mp hcon with ⟨_, _, hdisj⟩
        exact hdisj hmem (by simp)
      exact this hnd
    have hlk : ((cl.lookup (encodeName nl.1)).isSome) = false := by
      rw [Bool.eq_false_iff]
      intro hcon
      exact hnotmem (hK ▸ (lookup_isSome_iff cl (encodeName nl.1)).mp hcon)
    have hkeys' : keysOf (dictSet cl (encodeName nl.1) (encodePayload nl.2)) =
        K ++ [encodeName nl.1] := by
      rw [keysOf_dictSet, hlk]
      simp [hK]
    have happ : K ++ (nl :: t).map (fun nl => encodeName nl.1) =
        (K ++ [encodeName nl.1]) ++ t.map (fun nl => encodeName nl.1) := by
      simp
    rw [happ]
    rw [happ] at hnd
    exact ih _ _ _ hkeys' hnd
  
theorem buildDicts_keys_of_nodup (lines : List (String × String))
    (hnd : (lines.map (fun nl => encodeName nl.1)).Nodup) :
    keysOf (buildDicts lines).1 = lines.map (fun nl => encodeName nl.1) := by
  have := buildDicts_keys_aux lines [] [] [] rfl (by simpa using hnd)
  simpa [buildDicts] using this

theorem field_at_16 (m v nb bsz dc rest : List Nat)
    (hm : m.length = 4) (hv : v.length = 4) (hnb : nb.length = 4)
    (hbsz : bsz.length = 4) (hdc : dc.length = 4) :
    ((m ++ (v ++ (nb ++ (bsz ++ (dc ++ rest))))).drop 16).take 4 = dc := by
  have h1 : (m ++ (v ++ (nb ++ (bsz ++ (dc ++ rest))))).drop 16 = dc ++ rest := by
    rw [show (16 : Nat) = m.length + 12 from by omega, List.drop_append,
      show (12 : Nat) = v.length + 8 from by omega, List.drop_append,
      show (8 : Nat) = nb.length + 4 from by omega, List.drop_append,
      show (4 : Nat) = bsz.length + 0 from by omega, List.drop_append,
      List.drop_zero]
  rw [h1, ← hdc, List.take_left]

theorem field_at_20 (m v nb bsz dc off rest : List Nat)
    (hm : m.length = 4) (hv : v.length = 4) (hnb : nb.length = 4)
    (hbsz : bsz.length = 4) (hdc : dc.length = 4) (hoff : off.length = 4) :
    ((m ++ (v ++ (nb ++ (bsz ++ (dc ++ (off ++ rest)))))).drop 20).take 4 = off := by
  have h1 : (m ++ (v ++ (nb ++ (bsz ++ (dc ++ (off ++ rest)))))).drop 20 =
      off ++ rest := by
    rw [show (20 : Nat) = m.length + 16 from by omega, List.drop_append,
      show (16 : Nat) = v.length + 12 from by omega, List.drop_append,
      show (12 : Nat) = nb.length + 8 from by omega, List.drop_append,
      show (8 : Nat) = bsz.length + 4 from by omega, List.drop_append,
      show (4 : Nat) = dc.length + 0 from by omega, List.drop_append,
      List.drop_zero]
  rw [h1, ← hoff, List.take_left]

/-- C5 (amended): the 4-byte directory-entry-count field written at bytes
16..19 of the header equals the number of name → text pairs of the input
(`len(self.lines.keys())`); when no two caption names share a CRC-32 hash of
the lowercased name, this equals the total number of directory records
emitted. -/
theorem C5_amended_entry_count (fuel : Nat) (lines : List (String × String))
    (bs : List BlockData) (file : List Nat)
    (hb : createblocks fuel lines = .ok bs)
    (hs : serialize fuel lines = .ok file) :
    (file.drop 16).take 4 = le4 lines.length ∧
    ((lines.map (fun nl => encodeName nl.1)).Nodup →
      totalRecords bs = lines.length) := by
  obtain ⟨bs', d, hb', hd, _, _, _, hfile⟩ := serialize_ok_inv fuel lines file hs
  rw [hb] at hb'
  injection hb' with hbs
  subst hbs
  constructor
  · rw [hfile]
    have hassoc : MAGIC_KEYWORD ++ le4 VERSION ++ le4 bs.length ++ le4 BLOCK_SIZE ++
        le4 lines.length ++ le4 (((24 + d.length) / 512 + 1) * 512) ++ d ++
        List.replicate ((((24 + d.length) / 512 + 1) * 512) - (24 + d.length)) 0 ++
        (bs.map BlockData.block).flatten =
        MAGIC_KEYWORD ++ (le4 VERSION ++ (le4 bs.length ++ (le4 BLOCK_SIZE ++
          (le4 lines.length ++ (le4 (((24 + d.length) / 512 + 1) * 512) ++ (d ++
          (List.replicate ((((24 + d.length) / 512 + 1) * 512) - (24 + d.length)) 0 ++
          (bs.map BlockData.block).flatten))))))) := by
      simp [List.append_assoc]
    rw [hassoc]
    exact field_at_16 _ _ _ _ _ _ rfl rfl rfl rfl rfl
  · intro hnd
    obtain ⟨_, hperm⟩ := createblocks_ok_spec fuel lines bs hb
    rw [totalRecords_eq_length, hperm.length_eq, buildDicts_keys_of_nodup lines hnd,
      List.length_map]

/-! ### C6: the first-block offset -/

/-- C6: on every successful serialization, the 4-byte value written at bytes
20..23 equals `(raw / 512 + 1) * 512` where `raw = 24 + directory byte
length`; that value is a positive multiple of 512 and strictly greater than
`raw` even when `raw` is itself a multiple of 512, and the bytes written
before the block payloads (header, directory and zero padding) total exactly
that offset. -/
theorem C6_first_block_offset (fuel : Nat) (lines : List (String × String))
    (bs : List BlockData) (directory : List Nat) (file : List Nat)
    (hb : createblocks fuel lines = .ok bs)
    (hd : createdirectory bs = some directory)
    (hs : serialize fuel lines = .ok file) :
    (file.drop 20).take 4 = le4 (((24 + directory.length) / 512 + 1) * 512) ∧
    (((24 + directory.length) / 512 + 1) * 512) % 512 = 0 ∧
    0 < ((24 + directory.length) / 512 + 1) * 512 ∧
    24 + directory.length < ((24 + directory.length) / 512 + 1) * 512 ∧
    file =
      MAGIC_KEYWORD ++ le4 VERSION ++ le4 bs.length ++ le4 BLOCK_SIZE ++
        le4 lines.length ++ le4 (((24 + directory.length) / 512 + 1) * 512) ++
        directory ++
        List.replicate
          ((((24 + directory.length) / 512 + 1) * 512) - (24 + directory.length)) 0 ++
        (bs.map BlockData.block).flatten ∧
    (MAGIC_KEYWORD ++ le4 VERSION ++ le4 bs.length ++ le4 BLOCK_SIZE ++
      le4 lines.length ++ le4 (((24 + directory.length) / 512 + 1) * 512) ++
      directory ++
      List.replicate
        ((((24 + directory.length) / 512 + 1) * 512) - (24 + directory.length))
        0).length = ((24 + directory.length) / 512 + 1) * 512 := by
  obtain ⟨bs', d, hb', hd', _, _, _, hfile⟩ := serialize_ok_inv fuel lines file hs
  rw [hb] at hb'
  injection hb' with hbs
  subst hbs
  rw [hd] at hd'
  injection hd' with hdd
  subst hdd
  have hlt := raw_lt_offset (24 + directory.length)
  refine ⟨?_, by simp [Nat.mul_mod_left], by positivity, hlt, hfile, ?_⟩
  · rw [hfile]
    have hassoc : MAGIC_KEYWORD ++ le4 VERSION ++ le4 bs.length ++ le4 BLOCK_SIZE ++
        le4 lines.length ++ le4 (((24 + directory.length) / 512 + 1) * 512) ++
        directory ++
        List.replicate
          ((((24 + directory.length) / 512 + 1) * 512) - (24 + directory.length)) 0 ++
        (bs.map BlockData.block).flatten =
        MAGIC_KEYWORD ++ (le4 VERSION ++ (le4 bs.length ++ (le4 BLOCK_SIZE ++
          (le4 lines.length ++ (le4 (((24 + directory.length) / 512 + 1) * 512) ++
          (directory ++
          (List.replicate
            ((((24 + directory.length) / 512 + 1) * 512) - (24 + directory.length)) 0 ++
          (bs.map BlockData.block).flatten))))))) := by
      simp [List.append_assoc]
    rw [hassoc]
    exact field_at_20 _ _ _ _ _ _ _ rfl rfl rfl rfl rfl rfl
  · simp only [List.length_append, List.length_replicate, le4_length]
    have hm : MAGIC_KEYWORD.length = 4 := rfl
    rw [hm]
    omega

/-! ### C7: output shape -/

theorem blocks_bytes_length (bs : List BlockData)
    (h : ∀ b ∈ bs, b.block.length = BLOCK_SIZE) :
    ((bs.map BlockData.block).flatten).length = BLOCK_SIZE * bs.length := by
  induction bs with
  | nil => simp
  | cons b t ih =>
    simp only [List.map_cons, List.flatten_cons, List.length_append, List.length_cons]
    rw [h b (by simp), ih (fun b hb => h b (by simp [hb]))]
    ring

/-- C7: on every successful serialization, every block's buffer is exactly
8192 bytes long, the unused trailing space is zero-filled, and the total
output length equals `first_block_offset + 8192 * block_count`. -/
theorem C7_block_buffers_and_length (fuel : Nat) (lines : List (String × String))
    (bs : List BlockData) (file : List Nat)
    (hb : createblocks fuel lines = .ok bs)
    (hs : serialize fuel lines = .ok file) :
    (∀ b ∈ bs, b.block.length = BLOCK_SIZE ∧
      b.block.drop b.payloadLen = List.replicate (BLOCK_SIZE - b.payloadLen) 0) ∧
    ∃ directory, createdirectory bs = some directory ∧
      file.length = ((24 + directory.length) / 512 + 1) * 512 +
        BLOCK_SIZE * bs.length := by
  obtain ⟨bs', d, hb', hd', _, _, _, hfile⟩ := serialize_ok_inv fuel lines file hs
  rw [hb] at hb'
  injection hb' with hbs
  subst hbs
  obtain ⟨hGood, _⟩ := createblocks_ok_spec fuel lines bs hb
  refine ⟨fun b hbm => ⟨(hGood b hbm).2.1, (hGood b hbm).2.2.2⟩, d, hd', ?_⟩
  rw [hfile]
  have hlt := raw_lt_offset (24 + d.length)
  have hflat := blocks_bytes_length bs (fun b hbm => (hGood b hbm).2.1)
  simp only [List.length_append, List.length_replicate, le4_length]
  have hm : MAGIC_KEYWORD.length = 4 := rfl
  rw [hm, hflat]
  omega

/-! ### C8: directory record layout -/

theorem dirRecord_some (i : Nat) (ld : LineData) (r : List Nat)
    (h : dirRecord i ld = some r) :
    r = dirRecordSpec i ld ∧ ld.hash < 4294967296 ∧ i < 4294967296 ∧
      ld.offset < 65536 ∧ ld.len < 65536 := by
  unfold dirRecord pack_I pack_H at h
  by_cases h1 : ld.hash < 4294967296
  · rw [if_pos h1] at h
    by_cases h2 : i < 4294967296
    · rw [if_pos h2] at h
      by_cases h3 : ld.offset < 65536
      · rw [if_pos h3] at h
        by_cases h4 : ld.len < 65536
        · rw [if_pos h4] at h
          simp only [Option.some_bind, Option.some_inj] at h
          exact ⟨by rw [← h]; rfl, h1, h2, h3, h4⟩
        · rw [if_neg h4] at h
          simp at h
      · rw [if_neg h3] at h
        simp at h
    · rw [if_neg h2] at h
      simp at h
  · rw [if_neg h1] at h
    simp at h

theorem recFold_spec (i : Nat) :
    ∀ (lds : List LineData) (acc : Option (List Nat)) (r : List Nat),
      lds.foldl (fun acc ld =>
        acc.bind fun dir => (dirRecord i ld).map fun rec => dir ++ rec) acc =
        some r →
      ∃ r₀, acc = some r₀ ∧
        r = r₀ ++ (lds.map (dirRecordSpec i)).flatten ∧
        ∀ ld ∈ lds, ld.hash < 4294967296 ∧ i < 4294967296 ∧
          ld.offset < 65536 ∧ ld.len < 65536 := by
  intro lds
  induction lds with
  | nil =>
    intro acc r h
    exact ⟨r, h, by simp, fun ld hld => absurd hld (List.not_mem_nil ld)⟩
  | cons ld t ih =>
    intro acc r h
    rw [List.foldl_cons] at h
    obtain ⟨r₀, hacc, hr, hbounds⟩ := ih _ r h
    rw [Option.bind_eq_some] at hacc
    obtain ⟨dir, hdir, hmap⟩ := hacc
    rw [Option.map_eq_some'] at hmap
    obtain ⟨rec, hrec, hr₀⟩ := hmap
    obtain ⟨hspec, hb1, hb2, hb3, hb4⟩ := dirRecord_some i ld rec hrec
    refine ⟨dir, hdir, ?_, ?_⟩
    · rw [hr, ← hr₀, hspec]
      simp [List.append_assoc]
    · intro ld' hld'
      rcases List.mem_cons.mp hld' with he | hm
      · subst he
        exact ⟨hb1, hb2, hb3, hb4⟩
      · exact hbounds ld' hm

theorem blockDirectory_spec (i : Nat) (b : BlockData) (r : List Nat)
    (h : blockDirectory i b = some r) :
    r = (b.line_data.map (dirRecordSpec i)).flatten ∧
    ∀ ld ∈ b.line_data, ld.hash < 4294967296 ∧ i < 4294967296 ∧
      ld.offset < 65536 ∧ ld.len < 65536 := by
  unfold blockDirectory at h
  obtain ⟨r₀, hacc, hr, hbounds⟩ := recFold_spec i b.line_data (some []) r h
  injection hacc with hr₀
  subst hr₀
  rw [hr]
  exact ⟨by simp, hbounds⟩

theorem dirFold_spec :
    ∀ (l : List (Nat × BlockData)) (acc : Option (List Nat)) (d : List Nat),
      l.foldl (fun acc ib =>
        acc.bind fun dir => (blockDirectory ib.1 ib.2).map fun r => dir ++ r) acc =
        some d →
      ∃ d₀, acc = some d₀ ∧
        d = d₀ ++ (l.map (fun ib =>
          (ib.2.line_data.map (dirRecordSpec ib.1)).flatten)).flatten ∧
        ∀ ib ∈ l, ∀ ld ∈ ib.2.line_data,
          ld.hash < 4294967296 ∧ ib.1 < 4294967296 ∧
          ld.offset < 65536 ∧ ld.len < 65536 := by
  intro l
  induction l with
  | nil =>
    intro acc d h
    exact ⟨d, h, by simp, fun ib hib => absurd hib (List.not_mem_nil ib)⟩
  | cons ib t ih =>
    intro acc d h
    rw [List.foldl_cons] at h
    obtain ⟨d₀, hacc, hd, hbounds⟩ := ih _ d h
    rw [Option.bind_eq_some] at hacc
    obtain ⟨dir, hdir, hmap⟩ := hacc
    rw [Option.map_eq_some'] at hmap
    obtain ⟨r, hr, hd₀⟩ := hmap
    obtain ⟨hspec, hbnd⟩ := blockDirectory_spec ib.1 ib.2 r hr
    refine ⟨dir, hdir, ?_, ?_⟩
    · rw [hd, ← hd₀, hspec]
      simp [List.append_assoc]
    · intro ib' hib'
      rcases List.mem_cons.mp hib' with he | hm
      · subst he
        exact hbnd
      · exact hbounds ib' hm

/-- C8: the directory byte sequence is the concatenation, in block order and
then intra-block placement order, of one 12-byte record per placed entry —
uint32 hash, uint32 owning block index, uint16 offset within the block,
uint16 payload length, all little-endian — with every field in range. -/
theorem C8_directory_layout (blocks : List BlockData) (d : List Nat)
    (h : createdirectory blocks = some d) :
    d = (blocks.enum.map (fun ib =>
          (ib.2.line_data.map (dirRecordSpec ib.1)).flatten)).flatten ∧
    (∀ i : Nat, ∀ ld : LineData, (dirRecordSpec i ld).length = 12) ∧
    (∀ ib ∈ blocks.enum, ∀ ld ∈ ib.2.line_data,
      ld.hash < 4294967296 ∧ ib.1 < 4294967296 ∧
      ld.offset < 65536 ∧ ld.len < 65536) := by
  unfold createdirectory at h
  obtain ⟨d₀, hacc, hd, hbounds⟩ := dirFold_spec blocks.enum (some []) d h
  injection hacc with hd₀
  subst hd₀
  rw [hd]
  exact ⟨by simp, fun i ld => by simp [dirRecordSpec, le4, le2], hbounds⟩


/-! ### Witnesses at the concrete input `{"a": "x"}` -/

/-- Witness for C5 (amended). -/
theorem C5_amended_entry_count_witness :
    (createblocks 2 [("a", "x")] = .ok
      [⟨[⟨encodeName "a", 0, (encodePayload "x").length⟩],
      encodePayload "x" ++ List.replicate (8192 - (encodePayload "x").length) 0⟩]) ∧
    (serialize 2 [("a", "x")] = .ok
      (MAGIC_KEYWORD ++ le4 1 ++ le4 1 ++ le4 8192 ++ le4 1 ++ le4 512 ++
      (le4 (encodeName "a") ++ le4 0 ++ le2 0 ++ le2 (encodePayload "x").length) ++
      List.replicate 476 0 ++
      (encodePayload "x" ++ List.replicate (8192 - (encodePayload "x").length) 0))) ∧
    (((MAGIC_KEYWORD ++ le4 1 ++ le4 1 ++ le4 8192 ++ le4 1 ++ le4 512 ++
      (le4 (encodeName "a") ++ le4 0 ++ le2 0 ++ le2 (encodePayload "x").length) ++
      List.replicate 476 0 ++
      (encodePayload "x" ++ List.replicate (8192 - (encodePayload "x").length) 0)).drop 16).take 4 = le4 1 ∧
     (([("a", "x")].map (fun nl => encodeName nl.1)).Nodup →
       totalRecords
         [⟨[⟨encodeName "a", 0, (encodePayload "x").length⟩],
      encodePayload "x" ++ List.replicate (8192 - (encodePayload "x").length) 0⟩] = 1)) :=
  have hb : createblocks 2 [("a", "x")] = .ok
      [⟨[⟨encodeName "a", 0, (encodePayload "x").length⟩],
      encodePayload "x" ++ List.replicate (8192 - (encodePayload "x").length) 0⟩] :=
    createblocks_single_ok "a" "x" (by decide) (by decide)
  have hs : serialize 2 [("a", "x")] = .ok
      (MAGIC_KEYWORD ++ le4 1 ++ le4 1 ++ le4 8192 ++ le4 1 ++ le4 512 ++
      (le4 (encodeName "a") ++ le4 0 ++ le2 0 ++ le2 (encodePayload "x").length) ++
      List.replicate 476 0 ++
      (encodePayload "x" ++ List.replicate (8192 - (encodePayload "x").length) 0)) :=
    serialize_single_block 2 [("a", "x")] (encodeName "a")
      ((encodePayload "x").length)
      (encodePayload "x" ++ List.replicate (8192 - (encodePayload "x").length) 0)
      hb (crc32_lt _) (by decide) (by norm_num)
  ⟨hb, hs, C5_amended_entry_count 2 [("a", "x")] _ _ hb hs⟩

/-- Witness for C6. -/
theorem C6_first_block_offset_witness :
    (createblocks 2 [("a", "x")] = .ok
      [⟨[⟨encodeName "a", 0, (encodePayload "x").length⟩],
      encodePayload "x" ++ List.replicate (8192 - (encodePayload "x").length) 0⟩]) ∧
    (createdirectory
      [⟨[⟨encodeName "a", 0, (encodePayload "x").length⟩],
      encodePayload "x" ++ List.replicate (8192 - (encodePayload "x").length) 0⟩] = some (le4 (encodeName "a") ++ le4 0 ++ le2 0 ++ le2 (encodePayload "x").length)) ∧
    (serialize 2 [("a", "x")] = .ok
      (MAGIC_KEYWORD ++ le4 1 ++ le4 1 ++ le4 8192 ++ le4 1 ++ le4 512 ++
      (le4 (encodeName "a") ++ le4 0 ++ le2 0 ++ le2 (encodePayload "x").length) ++
      List.replicate 476 0 ++
      (encodePayload "x" ++ List.replicate (8192 - (encodePayload "x").length) 0))) ∧
    ((MAGIC_KEYWORD ++ le4 1 ++ le4 1 ++ le4 8192 ++ le4 1 ++ le4 512 ++
      (le4 (encodeName "a") ++ le4 0 ++ le2 0 ++ le2 (encodePayload "x").length) ++
      List.replicate 476 0 ++
      (encodePayload "x" ++ List.replicate (8192 - (encodePayload "x").length) 0)).drop 20).take 4 = le4 512 :=
  have hb : createblocks 2 [("a", "x")] = .ok
      [⟨[⟨encodeName "a", 0, (encodePayload "x").length⟩],
      encodePayload "x" ++ List.replicate (8192 - (encodePayload "x").length) 0⟩] :=
    createblocks_single_ok "a" "x" (by decide) (by decide)
  have hd : createdirectory
      [⟨[⟨encodeName "a", 0, (encodePayload "x").length⟩],
      encodePayload "x" ++ List.replicate (8192 - (encodePayload "x").length) 0⟩] = some (le4 (encodeName "a") ++ le4 0 ++ le2 0 ++ le2 (encodePayload "x").length) :=
    createdirectory_single (encodeName "a") ((encodePayload "x").length) _
      (crc32_lt _) (by decide)
  have hs : serialize 2 [("a", "x")] = .ok
      (MAGIC_KEYWORD ++ le4 1 ++ le4 1 ++ le4 8192 ++ le4 1 ++ le4 512 ++
      (le4 (encodeName "a") ++ le4 0 ++ le2 0 ++ le2 (encodePayload "x").length) ++
      List.replicate 476 0 ++
      (encodePayload "x" ++ List.replicate (8192 - (encodePayload "x").length) 0)) :=
    serialize_single_block 2 [("a", "x")] (encodeName "a")
      ((encodePayload "x").length)
      (encodePayload "x" ++ List.replicate (8192 - (encodePayload "x").length) 0)
      hb (crc32_lt _) (by decide) (by norm_num)
  ⟨hb, hd, hs,
    (C6_first_block_offset 2 [("a", "x")] _ _ _ hb hd hs).1⟩

/-- Witness for C7. -/
theorem C7_block_buffers_and_length_witness :
    (createblocks 2 [("a", "x")] = .ok
      [⟨[⟨encodeName "a", 0, (encodePayload "x").length⟩],
      encodePayload "x" ++ List.replicate (8192 - (encodePayload "x").length) 0⟩]) ∧
    (serialize 2 [("a", "x")] = .ok
      (MAGIC_KEYWORD ++ le4 1 ++ le4 1 ++ le4 8192 ++ le4 1 ++ le4 512 ++
      (le4 (encodeName "a") ++ le4 0 ++ le2 0 ++ le2 (encodePayload "x").length) ++
      List.replicate 476 0 ++
      (encodePayload "x" ++ List.replicate (8192 - (encodePayload "x").length) 0))) ∧
    ((∀ b ∈ [(⟨[⟨encodeName "a", 0, (encodePayload "x").length⟩],
      encodePayload "x" ++ List.replicate (8192 - (encodePayload "x").length) 0⟩ : BlockData)], b.block.length = BLOCK_SIZE ∧
        b.block.drop b.payloadLen = List.replicate (BLOCK_SIZE - b.payloadLen) 0) ∧
     ∃ directory, createdirectory
        [⟨[⟨encodeName "a", 0, (encodePayload "x").length⟩],
      encodePayload "x" ++ List.replicate (8192 - (encodePayload "x").length) 0⟩] = some directory ∧
       (MAGIC_KEYWORD ++ le4 1 ++ le4 1 ++ le4 8192 ++ le4 1 ++ le4 512 ++
      (le4 (encodeName "a") ++ le4 0 ++ le2 0 ++ le2 (encodePayload "x").length) ++
      List.replicate 476 0 ++
      (encodePayload "x" ++ List.replicate (8192 - (encodePayload "x").length) 0)).length =
         ((24 + directory.length) / 512 + 1) * 512 +
           BLOCK_SIZE * [(⟨[⟨encodeName "a", 0, (encodePayload "x").length⟩],
      encodePayload "x" ++ List.replicate (8192 - (encodePayload "x").length) 0⟩ : BlockData)].length) :=
  have hb : createblocks 2 [("a", "x")] = .ok
      [⟨[⟨encodeName "a", 0, (encodePayload "x").length⟩],
      encodePayload "x" ++ List.replicate (8192 - (encodePayload "x").length) 0⟩] :=
    createblocks_single_ok "a" "x" (by decide) (by decide)
  have hs : serialize 2 [("a", "x")] = .ok
      (MAGIC_KEYWORD ++ le4 1 ++ le4 1 ++ le4 8192 ++ le4 1 ++ le4 512 ++
      (le4 (encodeName "a") ++ le4 0 ++ le2 0 ++ le2 (encodePayload "x").length) ++
      List.replicate 476 0 ++
      (encodePayload "x" ++ List.replicate (8192 - (encodePayload "x").length) 0)) :=
    serialize_single_block 2 [("a", "x")] (encodeName "a")
      ((encodePayload "x").length)
      (encodePayload "x" ++ List.replicate (8192 - (encodePayload "x").length) 0)
      hb (crc32_lt _) (by decide) (by norm_num)
  ⟨hb, hs, C7_block_buffers_and_length 2 [("a", "x")] _ _ hb hs⟩

/-- Witness for C8. -/
theorem C8_directory_layout_witness :
    (createdirectory
      [⟨[⟨encodeName "a", 0, (encodePayload "x").length⟩],
      encodePayload "x" ++ List.replicate (8192 - (encodePayload "x").length) 0⟩] = some (le4 (encodeName "a") ++ le4 0 ++ le2 0 ++ le2 (encodePayload "x").length)) ∧
    ((le4 (encodeName "a") ++ le4 0 ++ le2 0 ++ le2 (encodePayload "x").length) =
      (([(⟨[⟨encodeName "a", 0, (encodePayload "x").length⟩],
      encodePayload "x" ++ List.replicate (8192 - (encodePayload "x").length) 0⟩ : BlockData)].enum.map (fun ib =>
        (ib.2.line_data.map (dirRecordSpec ib.1)).flatten)).flatten) ∧
    (∀ i : Nat, ∀ ld : LineData, (dirRecordSpec i ld).length = 12) ∧
    (∀ ib ∈ [(⟨[⟨encodeName "a", 0, (encodePayload "x").length⟩],
      encodePayload "x" ++ List.replicate (8192 - (encodePayload "x").length) 0⟩ : BlockData)].enum, ∀ ld ∈ ib.2.line_data,
      ld.hash < 4294967296 ∧ ib.1 < 4294967296 ∧
      ld.offset < 65536 ∧ ld.len < 65536)) :=
  have hd : createdirectory
      [⟨[⟨encodeName "a", 0, (encodePayload "x").length⟩],
      encodePayload "x" ++ List.replicate (8192 - (encodePayload "x").length) 0⟩] = some (le4 (encodeName "a") ++ le4 0 ++ le2 0 ++ le2 (encodePayload "x").length) :=
    createdirectory_single (encodeName "a") ((encodePayload "x").length) _
      (crc32_lt _) (by decide)
  ⟨hd, C8_directory_layout
    [⟨[⟨encodeName "a", 0, (encodePayload "x").length⟩],
      encodePayload "x" ++ List.replicate (8192 - (encodePayload "x").length) 0⟩] (le4 (encodeName "a") ++ le4 0 ++ le2 0 ++ le2 (encodePayload "x").length) hd⟩

/-- C1 (as literally stated, refuted): the packer does not produce a block
sequence for every input mapping.  With two captions of 2099 characters each
(payloads of 4200 bytes each, jointly 8400 > 8192), `_createblocks` raises
`ValueError` instead of returning blocks. -/
theorem C1_not_total_counterexample :
    createblocks 1 [("a", String.mk (List.replicate 2099 'd')),
                    ("b", String.mk (List.replicate 2099 'e'))] = .err .valueError ∧
    ∀ bs : List BlockData,
      createblocks 1 [("a", String.mk (List.replicate 2099 'd')),
                      ("b", String.mk (List.replicate 2099 'e'))] ≠ .ok bs := by
  have hlen1 : (encodePayload (String.mk (List.replicate 2099 'd'))).length = 4200 := by
    rw [encodePayload_replicate_length 2099 'd' (by decide)]
  have hlen2 : (encodePayload (String.mk (List.replicate 2099 'e'))).length = 4200 := by
    rw [encodePayload_replicate_length 2099 'e' (by decide)]
  have hmain : createblocks 1 [("a", String.mk (List.replicate 2099 'd')),
      ("b", String.mk (List.replicate 2099 'e'))] = .err .valueError := by
    rw [createblocks_eq]
    rw [show buildDicts [("a", String.mk (List.replicate 2099 'd')),
          ("b", String.mk (List.replicate 2099 'e'))] =
        ([(encodeName "a", encodePayload (String.mk (List.replicate 2099 'd'))),
          (encodeName "b", encodePayload (String.mk (List.replicate 2099 'e')))],
         [(encodeName "a",
            (encodePayload (String.mk (List.replicate 2099 'd'))).length),
          (encodeName "b",
            (encodePayload (String.mk (List.replicate 2099 'e'))).length)]) from rfl]
    have e1 : (encodeName "a" == encodeName "a") = true := by decide
    have e2 : (encodeName "b" == encodeName "a") = false := by decide
    have e3 : (encodeName "b" == encodeName "b") = true := by decide
    refine packTwo_overflow _ _ _ _ _ (by decide) (by decide) (by decide)
      (by simp [List.lookup, e1]) (by simp [List.lookup, e2, e3]) ?_ ?_ ?_ ?_
    · rw [hlen2]; norm_num
    · rw [hlen1, hlen2]
    · rw [hlen1]; norm_num
    · rw [hlen1, hlen2]; norm_num
  refine ⟨hmain, fun bs hcon => ?_⟩
  rw [hmain] at hcon
  exact PResult.noConfusion hcon
